import Mathlib

/-!
Verification development for the bevy_tileset_importer repository.

The Rust sources are shallowly embedded: machine integers (u16/u32/usize)
become Nat, with overflow/underflow regimes made explicit through
hypotheses where the Rust arithmetic could panic or wrap; fallible Rust
functions returning Result become Except; byte buffers become List Nat;
f32 color arithmetic is embedded as exact fractions (the properties
settled here only depend on control flow and on values where the f32
computation is exact).

External collaborator types (bevy Image, wgpu Extent3d / TextureFormat,
the bincode codec, the flate2 compressor) are modelled from their
documented behavior only to the extent the embedded repository code
consumes them; each such model carries a comment saying so.
-/

namespace TilesetImporter

/-- Model of bevy_math UVec2: a pair of u32 coordinates (as Nat). -/
structure UVec2 where
  x : Nat
  y : Nat
deriving DecidableEq, Repr

instance : Add UVec2 := ⟨fun a b => ⟨a.x + b.x, a.y + b.y⟩⟩

instance : Sub UVec2 := ⟨fun a b => ⟨a.x - b.x, a.y - b.y⟩⟩

instance : Mul UVec2 := ⟨fun a b => ⟨a.x * b.x, a.y * b.y⟩⟩

instance : Div UVec2 := ⟨fun a b => ⟨a.x / b.x, a.y / b.y⟩⟩

/-- Model of bevy_math URect: min and max pixel corners. -/
structure URect where
  min : UVec2
  max : UVec2
deriving DecidableEq, Repr

/-- URect::size, as used by the layout and copier code. -/
def URect.size (r : URect) : UVec2 := r.max - r.min

/-- Componentwise less-or-equal, modelling UVec2::cmple(..).all(). -/
def UVec2.le (a b : UVec2) : Bool := decide (a.x ≤ b.x) && decide (a.y ≤ b.y)

/-- src/layout.rs TileFrame: a frame rectangle in the source image plus the
anchor offset of the frame within its destination tile canvas. -/
structure TileFrame where
  frame : URect
  anchor : UVec2
deriving DecidableEq, Repr

/-- src/layout.rs TileFrame::from_size. -/
def TileFrame.from_size (size : UVec2) : TileFrame :=
  ⟨⟨⟨0, 0⟩, size⟩, ⟨0, 0⟩⟩

/-- src/layout.rs LayoutError (the `Other` variant carries the literal
message "todo" in the source and is referenced by no code path). -/
inductive LayoutError where
  | EmptyImage : LayoutError
  | OutOfRange (idx len : Nat) : LayoutError
  | TooManyTiles (n : Nat) : LayoutError
  | InvalidFrame (index : Nat) (frame : URect) (image_size : UVec2) : LayoutError
  | InvalidAnchor (index : Nat) (frame : URect) (anchor : UVec2) (tile_size : UVec2) : LayoutError
  | Other : LayoutError
deriving DecidableEq, Repr

/-- src/layout.rs TileInfo. -/
structure TileInfo where
  size : UVec2
  count : Nat
deriving DecidableEq, Repr

/-- src/layout.rs GridLayout. -/
structure GridLayout where
  tile_size : UVec2
  tile_padding : UVec2
  image_margin : URect
deriving DecidableEq, Repr

/-- src/layout.rs GridLayout::from_tile_size. -/
def GridLayout.from_tile_size (tile_size : UVec2) : GridLayout :=
  ⟨tile_size, ⟨0, 0⟩, ⟨⟨0, 0⟩, ⟨0, 0⟩⟩⟩

/-- src/layout.rs GridLayout::margin_size. -/
def GridLayout.margin_size (g : GridLayout) : UVec2 :=
  g.image_margin.min + g.image_margin.max

/-- src/layout.rs GridLayout::grid: componentwise
(image_size - margin + padding) / (tile_size + padding).
Rust u32 subtraction/division panics on underflow or a zero divisor;
theorems about this function carry hypotheses keeping those regimes out. -/
def GridLayout.grid (g : GridLayout) (image_size : UVec2) : UVec2 :=
  (image_size - g.margin_size + g.tile_padding) / (g.tile_size + g.tile_padding)

/-- src/layout.rs GridLayout::tile_info: the tile count is the grid cell
product, failing only the u16 conversion (TooManyTiles above 65535). -/
def GridLayout.tile_info (g : GridLayout) (image_size : UVec2) :
    Except LayoutError TileInfo :=
  let count := (g.grid image_size).x * (g.grid image_size).y
  if count ≤ 65535 then
    .ok ⟨g.tile_size, count⟩
  else
    .error (.TooManyTiles count)

/-- src/layout.rs GridLayout::frame: row-major unravel of the index,
scaled by (tile_size + padding); the margin origin is never added. -/
def GridLayout.frame (g : GridLayout) (image_size : UVec2) (index : Nat) :
    Except LayoutError TileFrame :=
  let grid := g.grid image_size
  let len := grid.x * grid.y
  if index < len then
    let x := index % grid.x
    let y := index / grid.x
    let min := (g.tile_size + g.tile_padding) * UVec2.mk x y
    .ok ⟨⟨min, min + g.tile_size⟩, ⟨0, 0⟩⟩
  else
    .error (.OutOfRange index len)

/-- src/layout.rs FramesLayout. -/
structure FramesLayout where
  tile_size : UVec2
  frames : List TileFrame
deriving DecidableEq, Repr

/-- The per-frame validation loop of FramesLayout::tile_info: the first
frame exceeding the image bounds or whose anchor+size exceeds the tile
size produces the corresponding error. -/
def FramesLayout.check (tile_size image_size : UVec2) :
    Nat → List TileFrame → Except LayoutError Unit
  | _, [] => .ok ()
  | index, f :: rest =>
    if ¬ (UVec2.le f.frame.max image_size = true) then
      .error (.InvalidFrame index f.frame image_size)
    else if ¬ (UVec2.le (f.anchor + f.frame.size) tile_size = true) then
      .error (.InvalidAnchor index f.frame f.anchor tile_size)
    else
      FramesLayout.check tile_size image_size (index + 1) rest

/-- src/layout.rs FramesLayout::tile_info. -/
def FramesLayout.tile_info (l : FramesLayout) (image_size : UVec2) :
    Except LayoutError TileInfo := do
  FramesLayout.check l.tile_size image_size 0 l.frames
  if l.frames.length ≤ 65535 then
    .ok ⟨l.tile_size, l.frames.length⟩
  else
    .error (.TooManyTiles l.frames.length)

/-- src/layout.rs FramesLayout::frame. -/
def FramesLayout.frame (l : FramesLayout) (index : Nat) :
    Except LayoutError TileFrame :=
  match l.frames[index]? with
  | some f => .ok f
  | none => .error (.OutOfRange index l.frames.length)

/-- src/layout.rs single_info. -/
def single_info (image_size : UVec2) : Except LayoutError TileInfo :=
  if image_size.x ≠ 0 ∧ image_size.y ≠ 0 then
    .ok ⟨image_size, 1⟩
  else
    .error .EmptyImage

/-- src/layout.rs single_frame. -/
def single_frame (image_size : UVec2) (index : Nat) :
    Except LayoutError TileFrame :=
  if image_size.x ≠ 0 ∧ image_size.y ≠ 0 then
    if index ≠ 0 then .error (.OutOfRange index 1)
    else .ok (TileFrame.from_size image_size)
  else
    .error .EmptyImage

/-- src/layout.rs TilesetLayout. -/
inductive TilesetLayout where
  | Single : TilesetLayout
  | Grid : GridLayout → TilesetLayout
  | Frames : FramesLayout → TilesetLayout
deriving DecidableEq, Repr

/-- src/layout.rs TilesetLayout::tile_info. -/
def TilesetLayout.tile_info (l : TilesetLayout) (image_size : UVec2) :
    Except LayoutError TileInfo :=
  match l with
  | .Single => single_info image_size
  | .Grid g => g.tile_info image_size
  | .Frames f => f.tile_info image_size

/-- src/layout.rs TilesetLayout::frame. -/
def TilesetLayout.frame (l : TilesetLayout) (image_size : UVec2) (index : Nat) :
    Except LayoutError TileFrame :=
  match l with
  | .Single => single_frame image_size index
  | .Grid g => g.frame image_size index
  | .Frames f => f.frame index

/-- Exact-fraction embedding of f32 values: a quotient num/den with a
positive denominator maintained by construction. The mip-filter
properties settled here depend only on comparisons and on inputs where
the f32 computation is exact, so no rounding model is needed. -/
structure Frac where
  num : Int
  den : Int
deriving DecidableEq, Repr

/-- Embed a natural number byte value divided by 255, as bevy does when
reading an Rgba8Unorm channel. -/
def Frac.ofByte (b : Nat) : Frac := ⟨b, 255⟩

instance : Add Frac := ⟨fun a b => ⟨a.num * b.den + b.num * a.den, a.den * b.den⟩⟩

instance : Sub Frac := ⟨fun a b => ⟨a.num * b.den - b.num * a.den, a.den * b.den⟩⟩

instance : Mul Frac := ⟨fun a b => ⟨a.num * b.num, a.den * b.den⟩⟩

/-- Division of a fraction by a positive count, modelling the `/= n as f32`
in alpha_discard_mix. -/
def Frac.divNat (a : Frac) (n : Nat) : Frac := ⟨a.num, a.den * n⟩

/-- Ordering of fractions with positive denominators. -/
def Frac.le (a b : Frac) : Bool := decide (a.num * b.den ≤ b.num * a.den)

/-- Saturating truncation of a nonnegative fraction times 255 to a byte,
modelling the `(channel * 255.0) as u8` write in bevy set_color_at. -/
def Frac.toByte (a : Frac) : Nat :=
  (max 0 (min 255 (Int.fdiv (a.num * 255) a.den))).toNat

/-- Model of bevy_color LinearRgba (the only Color representation the
embedded code paths construct: get_color_at on an Rgba8Unorm image
returns a linear color, so Color::to_linear is the identity here). -/
structure LinearRgba where
  red : Frac
  green : Frac
  blue : Frac
  alpha : Frac
deriving DecidableEq, Repr

/-- bevy_color LinearRgba::NONE: fully transparent zero. -/
def LinearRgba.NONE : LinearRgba := ⟨⟨0, 1⟩, ⟨0, 1⟩, ⟨0, 1⟩, ⟨0, 1⟩⟩

instance : Add LinearRgba :=
  ⟨fun a b => ⟨a.red + b.red, a.green + b.green, a.blue + b.blue, a.alpha + b.alpha⟩⟩

/-- Componentwise division by a count, modelling LinearRgba /= n. -/
def LinearRgba.divNat (c : LinearRgba) (n : Nat) : LinearRgba :=
  ⟨c.red.divNat n, c.green.divNat n, c.blue.divNat n, c.alpha.divNat n⟩

/-- bevy VectorSpace lerp on LinearRgba: a + (b - a) * t componentwise. -/
def LinearRgba.lerp (a b : LinearRgba) (t : Frac) : LinearRgba :=
  ⟨a.red + (b.red - a.red) * t, a.green + (b.green - a.green) * t,
   a.blue + (b.blue - a.blue) * t, a.alpha + (b.alpha - a.alpha) * t⟩

/-- The alpha cutoff constant ALPHA_CUTOFF = 1e-4 of
src/importer/texture_builder.rs. -/
def ALPHA_CUTOFF : Frac := ⟨1, 10000⟩

/-- src/importer/texture_builder.rs should_discard: alpha <= ALPHA_CUTOFF. -/
def should_discard (alpha : Frac) : Bool := alpha.le ALPHA_CUTOFF

/-- The accumulation loop of alpha_discard_mix: returns none when some
element is discarded (the early `return LinearRgba::NONE`), otherwise the
count and componentwise running sum of the colors. -/
def mixLoop (n : Nat) (s : LinearRgba) : List LinearRgba → Option (Nat × LinearRgba)
  | [] => some (n, s)
  | c :: rest =>
    if should_discard c.alpha then none
    else mixLoop (n + 1) (s + c) rest

/-- src/importer/texture_builder.rs alpha_discard_mix. -/
def alpha_discard_mix (colors : List LinearRgba) : LinearRgba :=
  match mixLoop 0 LinearRgba.NONE colors with
  | none => LinearRgba.NONE
  | some (n, s) =>
    let s := if n > 1 then s.divNat n else s
    if should_discard s.alpha then LinearRgba.NONE else s

/-- src/importer/texture_builder.rs alpha_discard_lerp. -/
def alpha_discard_lerp (a b : LinearRgba) (t : Frac) : LinearRgba :=
  if should_discard a.alpha then LinearRgba.NONE
  else if should_discard b.alpha then LinearRgba.NONE
  else a.lerp b t

/-- Model of wgpu TextureFormat, restricted to the variants this
development exercises; Depth24Plus stands in for the formats with no
defined pixel copy size. -/
inductive TextureFormat where
  | Rgba8Unorm : TextureFormat
  | Rgba8UnormSrgb : TextureFormat
  | R8Unorm : TextureFormat
  | Rgba32Float : TextureFormat
  | Depth24Plus : TextureFormat
deriving DecidableEq, Repr

/-- Model of bevy TextureFormatPixelInfo::pixel_size, the per-pixel byte
count taken from wgpu block_copy_size; none models the Err case. -/
def TextureFormat.pixel_size : TextureFormat → Option Nat
  | .Rgba8Unorm => some 4
  | .Rgba8UnormSrgb => some 4
  | .R8Unorm => some 1
  | .Rgba32Float => some 16
  | .Depth24Plus => none

/-- Model of bevy Image: a two-dimensional pixel buffer. The data is the
flat row-major byte buffer; bevy stores it as Option but every image the
embedded code constructs is initialized, so it is carried directly. -/
structure Image where
  width : Nat
  height : Nat
  format : TextureFormat
  data : List Nat
deriving DecidableEq, Repr

/-- bevy Image::size. -/
def Image.size (img : Image) : UVec2 := ⟨img.width, img.height⟩

/-- The byte range [i, j) of a buffer, as read by the Rust slice
expression src[i..j]. -/
def getSlice (l : List Nat) (i j : Nat) : List Nat := (l.drop i).take (j - i)

/-- Overwrite the bytes of a buffer starting at position i with src, as
the Rust copy_from_slice into dst[i..i+src.len()] does. -/
def setSlice (l : List Nat) (i : Nat) (src : List Nat) : List Nat :=
  l.take i ++ src ++ l.drop (i + src.length)

/-- Model of bevy Image::get_color_at for the Rgba8Unorm format (the only
color-readable format this development drives through the mip filters):
reads four bytes at the pixel offset and normalizes each by 255 into a
linear color. Out-of-bounds access or another format yields none,
modelling TextureAccessError. -/
def Image.get_color_at (img : Image) (x y : Nat) : Option LinearRgba :=
  if img.format = .Rgba8Unorm ∧ x < img.width ∧ y < img.height then
    let p := (x + y * img.width) * 4
    if p + 4 ≤ img.data.length then
      some ⟨.ofByte (img.data.getD p 0), .ofByte (img.data.getD (p + 1) 0),
            .ofByte (img.data.getD (p + 2) 0), .ofByte (img.data.getD (p + 3) 0)⟩
    else none
  else none

/-- Model of bevy Image::set_color_at for Rgba8Unorm: writes the four
channel bytes, each the saturating truncation of channel * 255. -/
def Image.set_color_at (img : Image) (x y : Nat) (c : LinearRgba) : Option Image :=
  if img.format = .Rgba8Unorm ∧ x < img.width ∧ y < img.height then
    let p := (x + y * img.width) * 4
    some { img with
           data := setSlice img.data p
             [c.red.toByte, c.green.toByte, c.blue.toByte, c.alpha.toByte] }
  else none

/-- src/importer/texture_builder.rs downscale_image_half: every target
pixel is the alpha-discarding mix of the 2x2 source block above it, rows
outer, columns inner, exactly as the source loops. -/
def downscale_image_half (src tgt : Image) : Option Image :=
  (List.range tgt.height).foldlM (fun img ty =>
    (List.range tgt.width).foldlM (fun img tx => do
      let sx := 2 * tx
      let sy := 2 * ty
      let c00 ← src.get_color_at sx sy
      let c10 ← src.get_color_at (sx + 1) sy
      let c01 ← src.get_color_at sx (sy + 1)
      let c11 ← src.get_color_at (sx + 1) (sy + 1)
      img.set_color_at tx ty (alpha_discard_mix [c00, c10, c01, c11])) img) tgt

/-- Floor of a fraction with positive denominator, modelling f32 floor on
the nonnegative scaled coordinates of the bilinear filter. -/
def Frac.floor (a : Frac) : Int := Int.fdiv a.num a.den

/-- src/importer/texture_builder.rs downscale_image_bilinear: each target
pixel samples four neighboring source pixels at the scaled fractional
coordinate and blends through two horizontal alpha-discarding lerps
followed by a vertical one. -/
def downscale_image_bilinear (src tgt : Image) : Option Image :=
  (List.range tgt.height).foldlM (fun img ty =>
    (List.range tgt.width).foldlM (fun img (tx : Nat) => do
      let fx : Frac := ⟨(src.width * tx : Nat), (tgt.width : Nat)⟩
      let fy : Frac := ⟨(src.height * ty : Nat), (tgt.height : Nat)⟩
      let sx := fx.floor.toNat
      let sy := fy.floor.toNat
      let tfx : Frac := fx - ⟨fx.floor, 1⟩
      let tfy : Frac := fy - ⟨fy.floor, 1⟩
      let a ← src.get_color_at sx sy
      let b ← src.get_color_at (sx + 1) sy
      let c0 := alpha_discard_lerp a b tfx
      let c ← src.get_color_at sx (sy + 1)
      let d ← src.get_color_at (sx + 1) (sy + 1)
      let c1 := alpha_discard_lerp c d tfx
      img.set_color_at tx ty (alpha_discard_lerp c0 c1 tfy)) img) tgt

/-- The bit length of a u32, modelling 32 - leading_zeros as wgpu
Extent3d::max_mips computes it for D2 textures. -/
def bitLen32 (n : Nat) : Nat := (List.range 32).countP fun i => decide (0 < n >>> i)

/-- wgpu Extent3d::max_mips for a D2 extent. -/
def maxMips (w h : Nat) : Nat := bitLen32 (max w h)

/-- wgpu Extent3d::mip_level_size width/height for a D2 extent: the
extent shifted right by the level, clamped to at least one. -/
def mipDim (n m : Nat) : Nat := max 1 (n >>> m)

/-- src/importer/error.rs SourceError. -/
inductive SourceError where
  | SourceOutOfRange (source_id source_len : Nat) : SourceError
  | SourceFormat (source_id : Nat) (source_format expected : TextureFormat) : SourceError
  | SourceLayout (source_id : Nat) (err : LayoutError) : SourceError
deriving DecidableEq, Repr

/-- src/importer/error.rs ImportTilesetError. The GenerateMips payload
(a bevy TextureAccessError) is collapsed to the bare constructor; which
access failed is not load-bearing for any property settled here. -/
inductive ImportTilesetError where
  | UnsupportedFormat (format : TextureFormat) : ImportTilesetError
  | GenerateMips : ImportTilesetError
  | ValidateSource (err : SourceError) : ImportTilesetError
  | ImportTile (tile_source : Nat × Nat) (err : SourceError) : ImportTilesetError
  | ImportGroup (group : List Nat) (tile_source : Nat × Nat) (err : SourceError) : ImportTilesetError
deriving DecidableEq, Repr

/-- src/importer/error.rs ImportTilesetError::in_group (group names are
modelled as their UTF-8 byte sequences throughout the importer and file
models). -/
def ImportTilesetError.in_group (e : ImportTilesetError) (group : List Nat) : ImportTilesetError :=
  match e with
  | .ImportTile tile_source err => .ImportGroup group tile_source err
  | other => other

/-- Modelled from the spec: the type `crate::layout::TilesetSourceFrames`
and the method `TilesetLayout::tile_frames` are referenced by the
importer but absent from src/. Per the spec, resolving a layout against
an image size yields a tile count and a tile-index-to-frame lookup
capability; this structure records the resolved layout and image size and
provides both. -/
structure TilesetSourceFrames where
  layout : TilesetLayout
  image_size : UVec2
  count : Nat
deriving DecidableEq, Repr

/-- The frame lookup of the spec-modelled frame accessor. -/
def TilesetSourceFrames.get (s : TilesetSourceFrames) (idx : Nat) :
    Except LayoutError TileFrame :=
  s.layout.frame s.image_size idx

/-- The tile count of the spec-modelled frame accessor. -/
def TilesetSourceFrames.tile_count (s : TilesetSourceFrames) : Nat := s.count

/-- Modelled from the spec: `TilesetLayout::tile_frames` resolves the
layout into the frame accessor (the import-wide tile size argument is
taken but the resolution the spec describes depends on the layout and the
image size). -/
def TilesetLayout.tile_frames (l : TilesetLayout) (image_size tile_size : UVec2) :
    Except LayoutError TilesetSourceFrames :=
  (l.tile_info image_size).map fun info => ⟨l, image_size, info.count⟩

/-- src/importer/texture_builder.rs TextureBuilder. -/
structure TextureBuilder where
  mip_bufs : List Image
  texture_data : List Nat
  tile_count : Nat
  pixel_bytes : Nat
deriving DecidableEq, Repr

/-- bevy Image::new_fill with a zero pixel: a zeroed buffer of
width * height pixels of pixel_bytes bytes each. -/
def zeroImage (w h : Nat) (format : TextureFormat) (pixel_bytes : Nat) : Image :=
  ⟨w, h, format, List.replicate (w * h * pixel_bytes) 0⟩

/-- src/importer/texture_builder.rs TextureBuilder::new: fails up front
for formats with no pixel size, then sizes one zeroed buffer per mip
level (one level when mips are disabled). -/
def TextureBuilder.new (tile_size : UVec2) (texture_format : TextureFormat)
    (generate_mips : Bool) : Except ImportTilesetError TextureBuilder :=
  match texture_format.pixel_size with
  | none => .error (.UnsupportedFormat texture_format)
  | some pixel_bytes =>
    let mip_levels := if generate_mips then maxMips tile_size.x tile_size.y else 1
    .ok { mip_bufs := (List.range mip_levels).map fun m =>
            zeroImage (mipDim tile_size.x m) (mipDim tile_size.y m) texture_format pixel_bytes,
          texture_data := [], tile_count := 0, pixel_bytes := pixel_bytes }

/-- src/importer/texture_builder.rs TextureBuilder::copy_base_image: row
by row copy of the frame rectangle from the source image into the base
mip buffer at the anchor. The buffer is not cleared first. The Rust code
panics when the builder has no mip buffers; that case is out of the model
(the builder is returned unchanged) and no theorem exercises it. -/
def TextureBuilder.copy_base_image (b : TextureBuilder)
    (sources : List (Image × TilesetSourceFrames)) (tile_source : Nat × Nat) :
    Except SourceError TextureBuilder :=
  match sources[tile_source.1]? with
  | none => .error (.SourceOutOfRange tile_source.1 sources.length)
  | some (source, source_frames) =>
    match source_frames.get tile_source.2 with
    | .error err => .error (.SourceLayout tile_source.1 err)
    | .ok tf =>
      match b.mip_bufs with
      | [] => .ok b
      | tgt :: rest =>
        let frame_row_bytes := tf.frame.size.x * b.pixel_bytes
        let src_row_bytes := source.width * b.pixel_bytes
        let tgt_row_bytes := tgt.width * b.pixel_bytes
        let src_i := (tf.frame.min.x + tf.frame.min.y * source.width) * b.pixel_bytes
        let tgt_i := (tf.anchor.x + tf.anchor.y * tgt.width) * b.pixel_bytes
        let data := (List.range tf.frame.size.y).foldl (fun d r =>
          setSlice d (tgt_i + r * tgt_row_bytes)
            (getSlice source.data (src_i + r * src_row_bytes)
              (src_i + r * src_row_bytes + frame_row_bytes))) tgt.data
        .ok { b with mip_bufs := { tgt with data := data } :: rest }

/-- One iteration of the generate_mips loop at level m: downscale level
m - 1 into level m (2x2 box when the previous level is exactly double the
size, bilinear otherwise) and append the freshly generated level's bytes
to the output buffer. -/
def generateMipStep (b : TextureBuilder) (m : Nat) :
    Except ImportTilesetError TextureBuilder :=
  match b.mip_bufs[m - 1]?, b.mip_bufs[m]? with
  | some src, some tgt =>
    match (if src.width = 2 * tgt.width ∧ src.height = 2 * tgt.height then
            downscale_image_half src tgt
          else
            downscale_image_bilinear src tgt) with
    | none => .error .GenerateMips
    | some tgt2 => .ok { b with mip_bufs := b.mip_bufs.set m tgt2,
                                texture_data := b.texture_data ++ tgt2.data }
  | _, _ => .ok b

/-- src/importer/texture_builder.rs TextureBuilder::generate_mips: run
the loop body over the levels 1 up to the pyramid height. -/
def TextureBuilder.generate_mips (b : TextureBuilder) :
    Except ImportTilesetError TextureBuilder :=
  ((List.range (b.mip_bufs.length - 1)).map (· + 1)).foldlM generateMipStep b

/-- src/importer/texture_builder.rs TextureBuilder::write_mip_bufs:
append the bytes of every mip buffer, base first, to the output buffer. -/
def TextureBuilder.write_mip_bufs (b : TextureBuilder) : TextureBuilder :=
  { b with texture_data := b.mip_bufs.foldl (fun acc img => acc ++ img.data) b.texture_data }

/-- src/importer/texture_builder.rs TextureBuilder::import_tile: copy the
base image, generate the mips, write out every mip buffer, and assign the
next sequential tile index. -/
def TextureBuilder.import_tile (b : TextureBuilder)
    (sources : List (Image × TilesetSourceFrames)) (tile_source : Nat × Nat) :
    Except ImportTilesetError (Nat × TextureBuilder) := do
  let b ← (b.copy_base_image sources tile_source).mapError
    fun err => ImportTilesetError.ImportTile tile_source err
  let b ← b.generate_mips
  let b := b.write_mip_bufs
  .ok (b.tile_count, { b with tile_count := b.tile_count + 1 })

/-- src/lib.rs TileGroups: named half-open ranges over one flat sequence
of tile indices. The HashMap is embedded as an association list with
unique keys; entry lookup is key equality, occupied-entry writes update
in place, and the values_mut fixup visits every entry, exactly as the
source does (iteration order is irrelevant: the fixup updates entries
independently). -/
structure TileGroups where
  groups : List (String × Nat × Nat)
  group_tiles : List Nat
deriving DecidableEq, Repr

/-- The empty TileGroups (Default). -/
def TileGroups.empty : TileGroups := ⟨[], []⟩

/-- Write a new range for an existing key, modelling OccupiedEntry::insert. -/
def updateValue (groups : List (String × Nat × Nat)) (name : String) (v : Nat × Nat) :
    List (String × Nat × Nat) :=
  groups.map fun p => if p.1 = name then (p.1, v) else p

/-- src/lib.rs TileGroups::insert_if_new: returns whether the group was
created, together with the updated table. -/
def TileGroups.insert_if_new (g : TileGroups) (name : String) (tiles : List Nat) :
    Bool × TileGroups :=
  if (g.groups.lookup name).isSome then (false, g)
  else
    (true, ⟨g.groups ++ [(name, g.group_tiles.length, g.group_tiles.length + tiles.length)],
            g.group_tiles ++ tiles⟩)

/-- src/lib.rs TileGroups::insert: append tiles to the named group,
creating it if absent; when the group is not at the tail of the flat
sequence, grow the sequence, move the segment after the group's old end
down, copy the new tiles into the freed slot, write the group's new
range, and then shift every range whose start is at or beyond the old
tail (the source loops over all values, its own included). -/
def TileGroups.insert (g : TileGroups) (name : String) (tiles : List Nat) : TileGroups :=
  let old_tiles_len := g.group_tiles.length
  let add_tiles_len := tiles.length
  let new_tiles_len := old_tiles_len + add_tiles_len
  match g.groups.lookup name with
  | none =>
    ⟨g.groups ++ [(name, old_tiles_len, new_tiles_len)], g.group_tiles ++ tiles⟩
  | some (head, old_tail) =>
    if old_tail = old_tiles_len then
      ⟨updateValue g.groups name (head, new_tiles_len), g.group_tiles ++ tiles⟩
    else
      let new_tail := old_tail + add_tiles_len
      let grown := g.group_tiles ++ List.replicate add_tiles_len 0
      let moved := setSlice grown new_tail (getSlice grown old_tail old_tiles_len)
      let filled := setSlice moved old_tail tiles
      let fixed := (updateValue g.groups name (head, new_tail)).map fun p =>
        if old_tail ≤ p.2.1 then (p.1, p.2.1 + add_tiles_len, p.2.2 + add_tiles_len) else p
      ⟨fixed, filled⟩

/-- src/lib.rs TileGroups::get_group. -/
def TileGroups.get_group (g : TileGroups) (name : String) : Option (List Nat) :=
  (g.groups.lookup name).map fun r => getSlice g.group_tiles r.1 r.2

/-- src/lib.rs TileGroups::group: the slice for the name, or empty. -/
def TileGroups.group (g : TileGroups) (name : String) : List Nat :=
  (g.get_group name).getD []

/-- Model of wgpu Extent3d. -/
structure Extent3d where
  width : Nat
  height : Nat
  depth_or_array_layers : Nat
deriving DecidableEq, Repr

/-- wgpu Extent3d::mip_level_size for a D2 texture: width and height are
shifted and clamped to one, array layers are untouched. -/
def Extent3d.mip_level_size (e : Extent3d) (m : Nat) : Extent3d :=
  ⟨mipDim e.width m, mipDim e.height m, e.depth_or_array_layers⟩

/-- bevy Volume::volume of an extent: the pixel count. -/
def Extent3d.volume (e : Extent3d) : Nat :=
  e.width * e.height * e.depth_or_array_layers

/-- src/format.rs TilesetFileError. The payloads of Io, Encode and Decode
are external error values and are dropped. -/
inductive TilesetFileError where
  | Io : TilesetFileError
  | Uninitialized : TilesetFileError
  | InvalidData : TilesetFileError
  | TooManyTiles (n : Nat) : TilesetFileError
  | Encode : TilesetFileError
  | Decode : TilesetFileError
deriving DecidableEq, Repr

/-- src/format.rs TilesetFile. Group names are modelled as their UTF-8
byte sequences, which is exactly what the bincode payload stores. -/
structure TilesetFile where
  tile_size : UVec2
  tile_count : Nat
  tile_groups : List (List Nat × List Nat)
  texture_format : TextureFormat
  texture_mips : Nat
  texture_data : List Nat
deriving DecidableEq, Repr

/-- src/format.rs validate_data_volume: the data length must equal the
summed pixel volume over mip levels 0..texture_mips times the pixel byte
size; an undeterminable pixel size also fails with InvalidData. -/
def validate_data_volume (texture_format : TextureFormat) (texture_size : Extent3d)
    (texture_mips : Nat) (texture_data : List Nat) : Except TilesetFileError Unit :=
  match texture_format.pixel_size with
  | some pixel_size =>
    let n_pixels := ((List.range texture_mips).map
      fun m => (texture_size.mip_level_size m).volume).sum
    if n_pixels * pixel_size = texture_data.length then .ok ()
    else .error .InvalidData
  | none => .error .InvalidData

/-- The TileGroups shape src/format.rs manipulates (a ranges-plus-flat
indices pair; the snapshot's lib.rs spells the fields differently but
format.rs reads them as ranges and indices). Names as UTF-8 bytes. -/
structure TileGroupsF where
  ranges : List (List Nat × Nat × Nat)
  indices : List Nat
deriving DecidableEq, Repr

/-- src/format.rs TileGroups::from_file_data: append each group's indices
to one flat list, recording the covered range. -/
def TileGroupsF.from_file_data (data : List (List Nat × List Nat)) : TileGroupsF :=
  data.foldl (fun acc g =>
    ⟨acc.ranges ++ [(g.1, acc.indices.length, acc.indices.length + g.2.length)],
     acc.indices ++ g.2⟩) ⟨[], []⟩

/-- src/format.rs TileGroups::into_file_data: read each range back out of
the flat list. -/
def TileGroupsF.into_file_data (g : TileGroupsF) : List (List Nat × List Nat) :=
  g.ranges.map fun r => (r.1, getSlice g.indices r.2.1 r.2.2)

/-- Model of the bevy Image as src/format.rs consumes it: the descriptor
extent, format and mip count, and the optionally initialized data. -/
structure BevyTexture where
  size : Extent3d
  format : TextureFormat
  mip_level_count : Nat
  data : Option (List Nat)
deriving DecidableEq, Repr

/-- src/format.rs TilesetFile::new: reject uninitialized data, validate
the data volume, then convert the layer count to a u16 tile count. -/
def TilesetFile.new (tile_groups : TileGroupsF) (texture : BevyTexture) :
    Except TilesetFileError TilesetFile :=
  match texture.data with
  | none => .error .Uninitialized
  | some texture_data => do
    validate_data_volume texture.format texture.size texture.mip_level_count texture_data
    if texture.size.depth_or_array_layers ≤ 65535 then
      .ok ⟨⟨texture.size.width, texture.size.height⟩,
           texture.size.depth_or_array_layers,
           tile_groups.into_file_data, texture.format,
           texture.mip_level_count, texture_data⟩
    else
      .error (.TooManyTiles texture.size.depth_or_array_layers)

/-- src/format.rs TilesetFile::into_count_groups_image: re-validate the
data volume against the recorded size, then rebuild the image. -/
def TilesetFile.into_count_groups_image (f : TilesetFile) :
    Except TilesetFileError (Nat × TileGroupsF × BevyTexture) := do
  let texture_size : Extent3d := ⟨f.tile_size.x, f.tile_size.y, f.tile_count⟩
  validate_data_volume f.texture_format texture_size f.texture_mips f.texture_data
  .ok (f.tile_count, TileGroupsF.from_file_data f.tile_groups,
       ⟨texture_size, f.texture_format, f.texture_mips, some f.texture_data⟩)

/-- Little-endian byte encoding of a value into k bytes, as the bincode
standard configuration writes the fixed-width tail of a variable-length
integer. -/
def natLE : Nat → Nat → List Nat
  | 0, _ => []
  | k + 1, n => n % 256 :: natLE k (n / 256)

/-- Little-endian decoding of k bytes. -/
def decodeLE : Nat → List Nat → Option (Nat × List Nat)
  | 0, l => some (0, l)
  | _ + 1, [] => none
  | k + 1, b :: l => (decodeLE k l).map fun p => (b + 256 * p.1, p.2)

/-- The bincode standard variable-length unsigned integer encoding:
values below 251 are one byte; otherwise a marker byte 251/252/253
prefixes the value as a little-endian u16/u32/u64. -/
def encodeVarint (n : Nat) : List Nat :=
  if n < 251 then [n]
  else if n < 2 ^ 16 then 251 :: natLE 2 n
  else if n < 2 ^ 32 then 252 :: natLE 4 n
  else 253 :: natLE 8 n

/-- Decoder for the bincode standard variable-length unsigned integer. -/
def decodeVarint : List Nat → Option (Nat × List Nat)
  | [] => none
  | b :: l =>
    if b < 251 then some (b, l)
    else if b = 251 then decodeLE 2 l
    else if b = 252 then decodeLE 4 l
    else if b = 253 then decodeLE 8 l
    else none

/-- Take exactly k raw bytes off the stream. -/
def takeExact : Nat → List Nat → Option (List Nat × List Nat)
  | 0, l => some ([], l)
  | _ + 1, [] => none
  | k + 1, b :: l => (takeExact k l).map fun p => (b :: p.1, p.2)

/-- A length-prefixed byte string (bincode Vec<u8> and the UTF-8 bytes of
a String). -/
def encBytes (bs : List Nat) : List Nat := encodeVarint bs.length ++ bs

/-- Decoder for a length-prefixed byte string. -/
def decBytes (l : List Nat) : Option (List Nat × List Nat) :=
  (decodeVarint l).bind fun p => takeExact p.1 p.2

/-- A length-prefixed sequence with a per-element encoder (bincode Vec). -/
def encList (enc : α → List Nat) (xs : List α) : List Nat :=
  encodeVarint xs.length ++ xs.foldr (fun x acc => enc x ++ acc) []

/-- Decode exactly k elements with a per-element decoder. -/
def decElems (dec : List Nat → Option (α × List Nat)) :
    Nat → List Nat → Option (List α × List Nat)
  | 0, l => some ([], l)
  | k + 1, l =>
    (dec l).bind fun p => (decElems dec k p.2).map fun q => (p.1 :: q.1, q.2)

/-- Decoder for a length-prefixed sequence. -/
def decList (dec : List Nat → Option (α × List Nat)) (l : List Nat) :
    Option (List α × List Nat) :=
  (decodeVarint l).bind fun p => decElems dec p.1 p.2

/-- The serde variant index of each modelled texture format (distinct
tags standing in for the wgpu enum positions; only distinctness and
stability matter to the payload round trip). -/
def TextureFormat.tag : TextureFormat → Nat
  | .R8Unorm => 0
  | .Rgba8Unorm => 1
  | .Rgba8UnormSrgb => 2
  | .Rgba32Float => 3
  | .Depth24Plus => 4

/-- Inverse of the variant tag. -/
def TextureFormat.ofTag : Nat → Option TextureFormat
  | 0 => some .R8Unorm
  | 1 => some .Rgba8Unorm
  | 2 => some .Rgba8UnormSrgb
  | 3 => some .Rgba32Float
  | 4 => some .Depth24Plus
  | _ => none

/-- Encoder for one tile-group entry: the name bytes then the u16 tile
indices. -/
def encGroup (g : List Nat × List Nat) : List Nat :=
  encBytes g.1 ++ encList encodeVarint g.2

/-- Decoder for one tile-group entry. -/
def decGroup (l : List Nat) : Option ((List Nat × List Nat) × List Nat) :=
  (decBytes l).bind fun p =>
    (decList decodeVarint p.2).map fun q => ((p.1, q.1), q.2)

/-- The bincode standard encoding of the TilesetFile payload, fields in
declaration order: tile_size as two u32, tile_count as u16, the group
table, the texture format variant, the mip count, and the raw data. -/
def encodePayload (f : TilesetFile) : List Nat :=
  encodeVarint f.tile_size.x ++ encodeVarint f.tile_size.y ++
  encodeVarint f.tile_count ++ encList encGroup f.tile_groups ++
  encodeVarint f.texture_format.tag ++ encodeVarint f.texture_mips ++
  encBytes f.texture_data

/-- The matching payload decoder (the second component is the unread
tail of the stream). -/
def decodePayload (l : List Nat) : Option (TilesetFile × List Nat) :=
  (decodeVarint l).bind fun tsx =>
  (decodeVarint tsx.2).bind fun tsy =>
  (decodeVarint tsy.2).bind fun count =>
  (decList decGroup count.2).bind fun groups =>
  (decodeVarint groups.2).bind fun tag =>
  (TextureFormat.ofTag tag.1).bind fun fmt =>
  (decodeVarint tag.2).bind fun mips =>
  (decBytes mips.2).map fun data =>
  (⟨⟨tsx.1, tsy.1⟩, count.1, groups.1, fmt, mips.1, data.1⟩, data.2)

/-- src/format.rs TilesetFile::write: compression level 0 emits flag byte
0 and the raw payload; levels 1 and up emit flag byte 1 and the payload
run through the deflate compressor at that level. The compressor is the
external flate2 collaborator, passed in as a function. -/
def TilesetFile.write (deflate : Nat → List Nat → List Nat) (f : TilesetFile)
    (compression : Nat) : List Nat :=
  if compression = 0 then 0 :: encodePayload f
  else 1 :: deflate compression (encodePayload f)

/-- src/format.rs TilesetFile::read: read the flag byte; zero decodes the
raw payload, anything else routes the rest of the stream through the
deflate decompressor (the external flate2 collaborator, passed in as a
function) before decoding. -/
def TilesetFile.read (inflate : List Nat → Option (List Nat)) :
    List Nat → Option TilesetFile
  | [] => none
  | flag :: rest =>
    if flag = 0 then (decodePayload rest).map fun p => p.1
    else (inflate rest).bind fun payload => (decodePayload payload).map fun p => p.1

/-- Well-formedness of a TilesetFile value as the Rust types force it:
u32 tile sizes and mip count, u16 tile count and tile indices, and
in-range (u64) collection lengths. -/
def TilesetFile.WF (f : TilesetFile) : Prop :=
  f.tile_size.x < 2 ^ 32 ∧ f.tile_size.y < 2 ^ 32 ∧ f.tile_count < 2 ^ 16 ∧
  f.texture_mips < 2 ^ 32 ∧ f.texture_data.length < 2 ^ 64 ∧
  f.tile_groups.length < 2 ^ 64 ∧
  ∀ g ∈ f.tile_groups, g.1.length < 2 ^ 64 ∧ g.2.length < 2 ^ 64 ∧
    ∀ t ∈ g.2, t < 2 ^ 16

instance (f : TilesetFile) : Decidable f.WF := by
  unfold TilesetFile.WF
  infer_instance

/-- src/importer/texture_builder.rs TextureBuilder::texture_format. The
Rust code indexes mip_bufs[0] and panics on an empty pyramid; the model
falls back to the default format there, and no theorem exercises that
case. -/
def TextureBuilder.texture_format (b : TextureBuilder) : TextureFormat :=
  ((b.mip_bufs.headD (zeroImage 0 0 .Rgba8Unorm 0)).format)

/-- src/importer/texture_builder.rs TextureBuilder::mip_levels. -/
def TextureBuilder.mip_levels (b : TextureBuilder) : Nat := b.mip_bufs.length

/-- src/importer/mod.rs TileFilter. -/
inductive TileFilter where
  | All : TileFilter
  | None : TileFilter
  | List (l : List (Nat × Nat)) : TileFilter
deriving DecidableEq, Repr

/-- The All-filter enumeration from a starting source ordinal: every
tile index of every source, sources in order, as the enumerate-flat_map
chain of TileFilter::try_for_each produces them. -/
def allRefsFrom (i : Nat) : List (Image × TilesetSourceFrames) → List (Nat × Nat)
  | [] => []
  | s :: rest => ((List.range s.2.tile_count).map fun t => (i, t)) ++ allRefsFrom (i + 1) rest

/-- The reference sequence TileFilter::try_for_each walks: every tile of
every source in order for All, nothing for None, and the explicit list
verbatim for List. -/
def tileFilterRefs (f : TileFilter) (sources : List (Image × TilesetSourceFrames)) :
    List (Nat × Nat) :=
  match f with
  | .All => allRefsFrom 0 sources
  | .None => []
  | .List l => l

/-- src/importer/mod.rs TilesetSource. -/
structure TilesetSource where
  texture : Image
  layout : TilesetLayout
deriving DecidableEq, Repr

/-- src/importer/mod.rs TilesetImportData. Group names are modelled as
their UTF-8 byte sequences. -/
structure TilesetImportData where
  tile_size : UVec2
  tile_filter : TileFilter
  tile_groups : List (List Nat × List (Nat × Nat))
  sources : List TilesetSource
deriving DecidableEq, Repr

/-- Model of the external bevy Image::convert, which the importer calls
only when the source format differs from the expected one: conversion
between distinct formats is not modelled (none), and no theorem drives
that path. -/
def Image.convert (img : Image) (fmt : TextureFormat) : Option Image :=
  if img.format = fmt then some img else none

/-- The source-validation pass of TilesetImportData::import: per source,
settle the texture format (inferring from the first source when none was
requested, converting otherwise), then resolve the layout into the frame
accessor. -/
def validateSources (tile_size : UVec2) (tf : Option TextureFormat) (source_id : Nat) :
    List TilesetSource →
    Except ImportTilesetError (Option TextureFormat × List (Image × TilesetSourceFrames))
  | [] => .ok (tf, [])
  | s :: rest => do
    let source_format := s.texture.format
    let (tf2, texture) ←
      match tf with
      | none => Except.ok (some source_format, s.texture)
      | some expected =>
        if expected ≠ source_format then
          match s.texture.convert expected with
          | some t => Except.ok (some expected, t)
          | none =>
            Except.error (.ValidateSource (.SourceFormat source_id source_format expected))
        else Except.ok (some expected, s.texture)
    match s.layout.tile_frames texture.size tile_size with
    | .error err => .error (.ValidateSource (.SourceLayout source_id err))
    | .ok frames =>
      (validateSources tile_size tf2 (source_id + 1) rest).map
        fun r => (r.1, (texture, frames) :: r.2)

/-- Key lookup in the dedup map (bevy HashMap embedded as an association
list with unique keys). -/
def alLookup (d : List ((Nat × Nat) × Nat)) (k : Nat × Nat) : Option Nat :=
  match d with
  | [] => none
  | p :: rest => if p.1 = k then some p.2 else alLookup rest k

/-- Insertion into the dedup map: HashMap::insert overwrites an existing
key and appends a new one. -/
def dedupInsert (d : List ((Nat × Nat) × Nat)) (k : Nat × Nat) (v : Nat) :
    List ((Nat × Nat) × Nat) :=
  if (alLookup d k).isSome then d.map fun p => if p.1 = k then (k, v) else p
  else d ++ [(k, v)]

/-- The tile-filter pass of TilesetImportData::import: import every
reference the filter names, unconditionally, recording each assignment in
the dedup map afterwards. -/
def importPass (sources : List (Image × TilesetSourceFrames)) :
    List (Nat × Nat) → List ((Nat × Nat) × Nat) × TextureBuilder →
    Except ImportTilesetError (List ((Nat × Nat) × Nat) × TextureBuilder)
  | [], st => .ok st
  | r :: rest, (dedup, builder) => do
    let ib ← builder.import_tile sources r
    importPass sources rest (dedupInsert dedup r ib.1, ib.2)

/-- One group reference of the group pass: an occupied dedup entry
resolves to the recorded index untouched; a vacant one imports the tile
(tagging an import failure with the group name, as map_err with in_group
does) and records the new index. -/
def importGroupRef (sources : List (Image × TilesetSourceFrames)) (name : List Nat)
    (dedup : List ((Nat × Nat) × Nat)) (builder : TextureBuilder) (r : Nat × Nat) :
    Except ImportTilesetError (Nat × List ((Nat × Nat) × Nat) × TextureBuilder) :=
  match alLookup dedup r with
  | some i => .ok (i, dedup, builder)
  | none =>
    match builder.import_tile sources r with
    | .error e => .error (e.in_group name)
    | .ok (idx, b2) => .ok (idx, dedupInsert dedup r idx, b2)

/-- The members of one named group, in declaration order. -/
def importGroupTiles (sources : List (Image × TilesetSourceFrames)) (name : List Nat) :
    List (Nat × Nat) → List ((Nat × Nat) × Nat) × TextureBuilder →
    Except ImportTilesetError (List Nat × List ((Nat × Nat) × Nat) × TextureBuilder)
  | [], st => .ok ([], st.1, st.2)
  | r :: rest, (dedup, builder) =>
    match importGroupRef sources name dedup builder r with
    | .error e => .error e
    | .ok (i, d2, b2) =>
      match importGroupTiles sources name rest (d2, b2) with
      | .error e => .error e
      | .ok (is, d3, b3) => .ok (i :: is, d3, b3)

/-- The group pass of TilesetImportData::import, groups in declaration
order. -/
def importGroups (sources : List (Image × TilesetSourceFrames)) :
    List (List Nat × List (Nat × Nat)) → List ((Nat × Nat) × Nat) × TextureBuilder →
    Except ImportTilesetError
      (List (List Nat × List Nat) × List ((Nat × Nat) × Nat) × TextureBuilder)
  | [], st => .ok ([], st.1, st.2)
  | g :: rest, (dedup, builder) =>
    match importGroupTiles sources g.1 g.2 (dedup, builder) with
    | .error e => .error e
    | .ok (is, d2, b2) =>
      match importGroups sources rest (d2, b2) with
      | .error e => .error e
      | .ok (gs, d3, b3) => .ok ((g.1, is) :: gs, d3, b3)

/-- src/importer/mod.rs TilesetImportData::import: validate the sources,
build the mip pyramid, run the filter pass and then the group pass, and
assemble the TilesetFile from the builder. -/
def TilesetImportData.import (data : TilesetImportData)
    (texture_format : Option TextureFormat) (generate_mips : Bool) :
    Except ImportTilesetError TilesetFile := do
  let v ← validateSources data.tile_size texture_format 0 data.sources
  let sources := v.2
  let texture_format := v.1.getD .Rgba8Unorm
  let builder ← TextureBuilder.new data.tile_size texture_format generate_mips
  let st ← importPass sources (tileFilterRefs data.tile_filter sources) ([], builder)
  let fin ← importGroups sources data.tile_groups st
  let builder := fin.2.2
  .ok ⟨data.tile_size, builder.tile_count, fin.1, builder.texture_format,
       builder.mip_levels, builder.texture_data⟩

/-- The position of the first occurrence of a reference in a list (used
to state which output index the filter pass assigns to each filter
entry). -/
def refIndexOf (l : List (Nat × Nat)) (r : Nat × Nat) : Nat :=
  match l with
  | [] => 0
  | x :: rest => if x = r then 0 else refIndexOf rest r + 1

/-- Append a reference to an order unless it is already present (one step
of first-occurrence deduplication). -/
def insertRef (acc : List (Nat × Nat)) (r : Nat × Nat) : List (Nat × Nat) :=
  if r ∈ acc then acc else acc ++ [r]

/-- The distinct references of a sequence, in first-occurrence order
(used to state which references an import copies, and in which order). -/
def dedupSeq (l : List (Nat × Nat)) : List (Nat × Nat) := l.foldl insertRef []

/-- All references of all groups, groups in declaration order. -/
def flatGroupRefs (groups : List (List Nat × List (Nat × Nat))) : List (Nat × Nat) :=
  groups.foldr (fun g acc => g.2 ++ acc) []

/-! Theorems. -/

/-- Bind on a successful Except computes the continuation. -/
theorem exceptBind_ok {ε α β : Type} (a : α) (f : α → Except ε β) :
    (Except.ok a >>= f) = f a := rfl

/-- Bind on a failed Except propagates the error. -/
theorem exceptBind_error {ε α β : Type} (e : ε) (f : α → Except ε β) :
    ((Except.error e : Except ε α) >>= f) = Except.error e := rfl

/-- The accumulation loop of alpha_discard_mix returns none as soon as
any element of the list is discarded. -/
theorem mixLoop_eq_none {l : List LinearRgba} (n : Nat) (s : LinearRgba)
    (h : ∃ c ∈ l, should_discard c.alpha = true) : mixLoop n s l = none := by
  induction l generalizing n s with
  | nil => rcases h with ⟨c, hc, _⟩; cases hc
  | cons c rest ih =>
    rcases h with ⟨x, hx, hdisc⟩
    rcases List.mem_cons.mp hx with rfl | hmem
    · simp [mixLoop, hdisc]
    · by_cases hc : should_discard c.alpha = true
      · simp [mixLoop, hc]
      · simpa [mixLoop, hc] using ih (n + 1) (s + c) ⟨x, hmem, hdisc⟩

/-- C8: in both mip downscale filters, a contributing sample with alpha
at or below the 1e-4 cutoff forces a fully transparent zero output: the
four-sample box mix returns NONE when any of the four samples is at or
below the cutoff, and an alpha-discarding lerp stage returns NONE when
either of its two inputs is at or below the cutoff, regardless of the
other samples. -/
theorem C8_alpha_discard_short_circuits :
    (∀ c0 c1 c2 c3 : LinearRgba,
      (should_discard c0.alpha = true ∨ should_discard c1.alpha = true ∨
       should_discard c2.alpha = true ∨ should_discard c3.alpha = true) →
      alpha_discard_mix [c0, c1, c2, c3] = LinearRgba.NONE) ∧
    (∀ (a b : LinearRgba) (t : Frac),
      (should_discard a.alpha = true ∨ should_discard b.alpha = true) →
      alpha_discard_lerp a b t = LinearRgba.NONE) := by
  constructor
  · intro c0 c1 c2 c3 h
    have hnone : mixLoop 0 LinearRgba.NONE [c0, c1, c2, c3] = none := by
      apply mixLoop_eq_none
      rcases h with h | h | h | h
      exacts [⟨c0, by simp, h⟩, ⟨c1, by simp, h⟩, ⟨c2, by simp, h⟩, ⟨c3, by simp, h⟩]
    simp [alpha_discard_mix, hnone]
  · intro a b t h
    rcases h with h | h
    · simp [alpha_discard_lerp, h]
    · by_cases ha : should_discard a.alpha = true <;> simp [alpha_discard_lerp, ha, h]

/-- Witness for C8 at concrete colors: one transparent sample among
opaque white samples yields NONE from the box mix, and a transparent
first input yields NONE from the lerp at t = 1/2. -/
theorem C8_witness :
    alpha_discard_mix
      [⟨⟨1, 1⟩, ⟨1, 1⟩, ⟨1, 1⟩, ⟨0, 1⟩⟩, ⟨⟨1, 1⟩, ⟨1, 1⟩, ⟨1, 1⟩, ⟨1, 1⟩⟩,
       ⟨⟨1, 1⟩, ⟨1, 1⟩, ⟨1, 1⟩, ⟨1, 1⟩⟩, ⟨⟨1, 1⟩, ⟨1, 1⟩, ⟨1, 1⟩, ⟨1, 1⟩⟩] = LinearRgba.NONE ∧
    alpha_discard_lerp ⟨⟨1, 1⟩, ⟨1, 1⟩, ⟨1, 1⟩, ⟨0, 1⟩⟩
      ⟨⟨1, 1⟩, ⟨1, 1⟩, ⟨1, 1⟩, ⟨1, 1⟩⟩ ⟨1, 2⟩ = LinearRgba.NONE :=
  ⟨C8_alpha_discard_short_circuits.1 _ _ _ _ (Or.inl (by decide)),
   C8_alpha_discard_short_circuits.2 _ _ _ (Or.inl (by decide))⟩

/-- C10: TilesetFile::read branches only on whether the flag byte is
zero; every nonzero flag byte routes the remainder of the stream through
the deflate decompressor, so a raw payload is never decoded directly for
flags other than zero. -/
theorem C10_read_nonzero_flag_inflates (inflate : List Nat → Option (List Nat))
    (b : Nat) (rest : List Nat) (h : b ≠ 0) :
    TilesetFile.read inflate (b :: rest) =
      (inflate rest).bind fun payload => (decodePayload payload).map fun p => p.1 := by
  simp [TilesetFile.read, h]

/-- Witness for C10 at flag byte 7: the read is exactly the inflate-then-
decode pipeline. -/
theorem C10_witness :
    TilesetFile.read some (7 :: []) =
      (some []).bind fun payload => (decodePayload payload).map fun p => p.1 :=
  C10_read_nonzero_flag_inflates some 7 [] (by decide)

/-- Counterexample to C4 as stated: a 6 by 4 image under a 4 by 4 grid
(6 not a multiple of 4) does not fail with any InvalidGrid error; the
code floors the division and resolves successfully to one tile. -/
theorem C4_counterexample :
    ¬ (4 ∣ 6) ∧
    GridLayout.tile_info ⟨⟨4, 4⟩, ⟨0, 0⟩, ⟨⟨0, 0⟩, ⟨0, 0⟩⟩⟩ ⟨6, 4⟩ =
      .ok ⟨⟨4, 4⟩, 1⟩ :=
  ⟨by decide, rfl⟩

/-- C4 (amended): Grid resolution never checks divisibility; the grid is
the floored componentwise division, and resolution succeeds with count
grid_width * grid_height whenever that count fits a u16, failing with the
capacity error TooManyTiles otherwise (so 65536 fails and 65535
succeeds); a Frames layout whose per-frame validation passes behaves the
same way on its list length. The hypotheses keep the embedded u32
arithmetic inside the panic-free regime of the Rust code. -/
theorem C4_amended :
    (∀ (g : GridLayout) (s : UVec2),
      0 < g.tile_size.x + g.tile_padding.x → 0 < g.tile_size.y + g.tile_padding.y →
      g.margin_size.x ≤ s.x → g.margin_size.y ≤ s.y →
      ((g.grid s).x * (g.grid s).y ≤ 65535 →
        g.tile_info s = .ok ⟨g.tile_size, (g.grid s).x * (g.grid s).y⟩) ∧
      (65535 < (g.grid s).x * (g.grid s).y →
        g.tile_info s = .error (.TooManyTiles ((g.grid s).x * (g.grid s).y)))) ∧
    (∀ (fl : FramesLayout) (s : UVec2),
      FramesLayout.check fl.tile_size s 0 fl.frames = .ok () →
      (fl.frames.length ≤ 65535 →
        fl.tile_info s = .ok ⟨fl.tile_size, fl.frames.length⟩) ∧
      (65535 < fl.frames.length →
        fl.tile_info s = .error (.TooManyTiles fl.frames.length))) := by
  constructor
  · intro g s _ _ _ _
    constructor
    · intro hle
      simp [GridLayout.tile_info, hle]
    · intro hlt
      simp [GridLayout.tile_info, Nat.not_le_of_lt hlt]
  · intro fl s hcheck
    constructor
    · intro hle
      simp [FramesLayout.tile_info, hcheck, hle]
      rfl
    · intro hlt
      simp [FramesLayout.tile_info, hcheck, Nat.not_le_of_lt hlt]
      rfl

/-- Witness for C4 at the capacity boundary: a one-pixel grid over a
256 by 256 image resolves to 65536 cells and fails with TooManyTiles,
while a valid one-frame Frames layout resolves successfully. -/
theorem C4_witness :
    GridLayout.tile_info ⟨⟨1, 1⟩, ⟨0, 0⟩, ⟨⟨0, 0⟩, ⟨0, 0⟩⟩⟩ ⟨256, 256⟩ =
      .error (.TooManyTiles 65536) ∧
    FramesLayout.tile_info ⟨⟨2, 2⟩, [TileFrame.from_size ⟨1, 1⟩]⟩ ⟨4, 4⟩ =
      .ok ⟨⟨2, 2⟩, 1⟩ :=
  ⟨(C4_amended.1 ⟨⟨1, 1⟩, ⟨0, 0⟩, ⟨⟨0, 0⟩, ⟨0, 0⟩⟩⟩ ⟨256, 256⟩
      (by decide) (by decide) (by decide) (by decide)).2 (by decide),
   (C4_amended.2 ⟨⟨2, 2⟩, [TileFrame.from_size ⟨1, 1⟩]⟩ ⟨4, 4⟩ rfl).1 (by decide)⟩

/-- C5: at the failing input, a 2 by 2 grid with a one-pixel margin on
every side over a 4 by 4 image resolves tile zero to the frame anchored
at the image origin (0,0) through (2,2); the claim (and the margin
semantics the count computation already uses) requires the frame to be
offset by the margin origin (1,1) through (3,3). GridLayout::frame never
adds image_margin.min. -/
theorem C5_code_divergence :
    GridLayout.frame ⟨⟨2, 2⟩, ⟨0, 0⟩, ⟨⟨1, 1⟩, ⟨1, 1⟩⟩⟩ ⟨4, 4⟩ 0 =
      .ok ⟨⟨⟨0, 0⟩, ⟨2, 2⟩⟩, ⟨0, 0⟩⟩ ∧
    (⟨0, 0⟩ : UVec2) ≠ (⟨1, 1⟩ : UVec2) :=
  ⟨rfl, by decide⟩

/-- C1: at the failing input, importing one fully opaque 2 by 2
Rgba8Unorm tile with mip generation enabled (two mip levels: 16 base
bytes and 4 mip bytes) appends 24 bytes to the output buffer, not the 20
the claim requires: generate_mips already appends each generated level
and write_mip_bufs then appends every level again, so the generated
level's bytes land twice per tile. -/
theorem C1_code_divergence :
    ((TextureBuilder.new ⟨2, 2⟩ .Rgba8Unorm true).bind fun b =>
      (b.import_tile [(⟨2, 2, .Rgba8Unorm, List.replicate 16 255⟩,
          ⟨.Single, ⟨2, 2⟩, 1⟩)] (0, 0)).map
        fun ib => ib.2.texture_data.length) = .ok 24 ∧ (24 : Nat) ≠ 16 + 4 :=
  ⟨by rfl, by decide⟩

/-- C2: at the failing input, importing a full-canvas tile and then a
tile whose frame is the single bottom-right source pixel (anchored at the
canvas origin) leaves the previous tile's bytes in the second tile's
canvas outside its one-pixel frame: the base buffer is zeroed only at
construction, never between tiles. The byte at offset 4 of the second
tile's canvas (canvas pixel (1,0), outside the frame) is 5, the first
tile's pixel byte, where the claim requires 0. -/
theorem C2_code_divergence :
    ((TextureBuilder.new ⟨2, 2⟩ .Rgba8Unorm false).bind fun b =>
      (b.import_tile [(⟨2, 2, .Rgba8Unorm,
          [1, 2, 3, 4, 5, 6, 7, 8, 9, 10, 11, 12, 13, 14, 15, 16]⟩,
          ⟨.Frames ⟨⟨2, 2⟩, [⟨⟨⟨0, 0⟩, ⟨2, 2⟩⟩, ⟨0, 0⟩⟩,
                             ⟨⟨⟨1, 1⟩, ⟨2, 2⟩⟩, ⟨0, 0⟩⟩]⟩, ⟨2, 2⟩, 2⟩)] (0, 0)).bind
        fun ib =>
      (ib.2.import_tile [(⟨2, 2, .Rgba8Unorm,
          [1, 2, 3, 4, 5, 6, 7, 8, 9, 10, 11, 12, 13, 14, 15, 16]⟩,
          ⟨.Frames ⟨⟨2, 2⟩, [⟨⟨⟨0, 0⟩, ⟨2, 2⟩⟩, ⟨0, 0⟩⟩,
                             ⟨⟨⟨1, 1⟩, ⟨2, 2⟩⟩, ⟨0, 0⟩⟩]⟩, ⟨2, 2⟩, 2⟩)] (0, 1)).map
        fun ib2 => ib2.2.texture_data.drop 16) =
      .ok [13, 14, 15, 16, 5, 6, 7, 8, 9, 10, 11, 12, 13, 14, 15, 16] ∧
    List.getD [13, 14, 15, 16, 5, 6, 7, 8, 9, 10, 11, 12, 13, 14, 15, 16] 4 0 ≠ 0 :=
  ⟨by rfl, by decide⟩

/-- C6: at the failing input, appending tiles to an existing empty group
that is not at the tail of the flat sequence corrupts the table: starting
from group a empty and group b holding [5], insert(a, [7]) must leave a
looking up to [7], but the fixup loop (which visits every range, not only
the other groups' ranges) also shifts a's own freshly written range
because its start equals the old tail, so a looks up to [5] instead. -/
theorem C6_code_divergence :
    (((TileGroups.empty.insert "a" []).insert "b" [5]).insert "a" [7]).group "a" = [5] ∧
    ([5] : List Nat) ≠ [] ++ [7] :=
  ⟨by rfl, by decide⟩

/-- Counterexample to C3 as stated: a TilesetFile whose texture_data is
empty while its declared volume is one 1 by 1 Rgba8Unorm tile (4 bytes)
fails validation, yet writing it at compression level 0 and reading the
bytes back succeeds and returns the file unchanged: TilesetFile::read
performs no volume validation. The codec collaborators are instantiated
with the identity compressor. -/
theorem C3_counterexample :
    validate_data_volume .Rgba8Unorm ⟨1, 1, 1⟩ 1 [] = .error .InvalidData ∧
    TilesetFile.read some
        (TilesetFile.write (fun _ d => d)
          ⟨⟨1, 1⟩, 1, [], .Rgba8Unorm, 1, []⟩ 0) =
      some ⟨⟨1, 1⟩, 1, [], .Rgba8Unorm, 1, []⟩ :=
  ⟨by rfl, by rfl⟩

/-- C3 (amended): the volume invariant is enforced by TilesetFile::new on
construction and by TilesetFile::into_count_groups_image when a read file
is converted back into an image — each fails with InvalidData exactly
when the data length disagrees with the summed per-mip pixel volume times
the pixel byte size — while TilesetFile::read itself performs no volume
validation. -/
theorem C3_amended :
    (∀ (tg : TileGroupsF) (tex : BevyTexture) (d : List Nat) (ps : Nat),
      tex.data = some d → tex.format.pixel_size = some ps →
      (TilesetFile.new tg tex = .error .InvalidData ↔
        (((List.range tex.mip_level_count).map
            fun m => (tex.size.mip_level_size m).volume).sum) * ps ≠ d.length)) ∧
    (∀ (f : TilesetFile) (ps : Nat),
      f.texture_format.pixel_size = some ps →
      (f.into_count_groups_image = .error .InvalidData ↔
        (((List.range f.texture_mips).map
            fun m => ((⟨f.tile_size.x, f.tile_size.y, f.tile_count⟩ : Extent3d).mip_level_size m).volume).sum) * ps ≠ f.texture_data.length)) := by
  constructor
  · intro tg tex d ps hdata hps
    simp only [TilesetFile.new, hdata, validate_data_volume, hps]
    by_cases hvol : (((List.range tex.mip_level_count).map
        fun m => (tex.size.mip_level_size m).volume).sum) * ps = d.length
    · rw [if_pos hvol, exceptBind_ok]
      constructor
      · intro hcontra
        by_cases hcount : tex.size.depth_or_array_layers ≤ 65535
        · rw [if_pos hcount] at hcontra; cases hcontra
        · rw [if_neg hcount] at hcontra; cases hcontra
      · intro hne; exact absurd hvol hne
    · rw [if_neg hvol, exceptBind_error]
      simp [hvol]
  · intro f ps hps
    simp only [TilesetFile.into_count_groups_image, validate_data_volume, hps]
    by_cases hvol : (((List.range f.texture_mips).map
        fun m => ((⟨f.tile_size.x, f.tile_size.y, f.tile_count⟩ : Extent3d).mip_level_size m).volume).sum) * ps = f.texture_data.length
    · rw [if_pos hvol, exceptBind_ok]
      simp [hvol]
    · rw [if_neg hvol, exceptBind_error]
      simp [hvol]

/-- Witness for C3 at a concrete mismatch: a texture declaring one 1 by 1
Rgba8Unorm layer and one mip but carrying no bytes is rejected by new
with InvalidData, and the matching file value is rejected by
into_count_groups_image with InvalidData. -/
theorem C3_witness :
    TilesetFile.new ⟨[], []⟩ ⟨⟨1, 1, 1⟩, .Rgba8Unorm, 1, some []⟩ =
      .error .InvalidData ∧
    TilesetFile.into_count_groups_image ⟨⟨1, 1⟩, 1, [], .Rgba8Unorm, 1, []⟩ =
      .error .InvalidData :=
  ⟨(C3_amended.1 ⟨[], []⟩ ⟨⟨1, 1, 1⟩, .Rgba8Unorm, 1, some []⟩ [] 4 rfl rfl).mpr
      (by decide),
   (C3_amended.2 ⟨⟨1, 1⟩, 1, [], .Rgba8Unorm, 1, []⟩ 4 rfl).mpr (by decide)⟩

/-- Counterexample to C9 as stated: an import whose tile filter is the
explicit list [(0,0), (0,0)] (the same SourceTileRef twice within the
filter's list) imports the tile twice — the filter pass never consults
the dedup map — so texture_data holds two copies of the 4 tile bytes and
the tile count is 2, not the single copy the claim requires. -/
theorem C9_counterexample :
    TilesetImportData.import
        ⟨⟨1, 1⟩, .List [(0, 0), (0, 0)], [],
         [⟨⟨1, 1, .Rgba8Unorm, [1, 2, 3, 4]⟩, .Single⟩]⟩ none false =
      .ok ⟨⟨1, 1⟩, 2, [], .Rgba8Unorm, 1, [1, 2, 3, 4, 1, 2, 3, 4]⟩ ∧
    ([1, 2, 3, 4, 1, 2, 3, 4] : List Nat) ≠ [1, 2, 3, 4] :=
  ⟨by rfl, by decide⟩

/-- Bind on a present Option computes the continuation. -/
theorem optBind_some {α β : Type} (a : α) (f : α → Option β) : (some a).bind f = f a := rfl

/-- Little-endian decoding inverts little-endian encoding for values that
fit the byte width. -/
theorem decodeLE_natLE (k : Nat) (r : List Nat) :
    ∀ n, n < 256 ^ k → decodeLE k (natLE k n ++ r) = some (n, r) := by
  induction k with
  | zero =>
    intro n h
    have hn : n = 0 := Nat.lt_one_iff.mp h
    subst hn
    rfl
  | succ k ih =>
    intro n h
    have hlt : n / 256 < 256 ^ k := by
      apply Nat.div_lt_of_lt_mul
      rw [pow_succ, Nat.mul_comm] at h
      exact h
    show decodeLE (k + 1) (n % 256 :: (natLE k (n / 256) ++ r)) = some (n, r)
    simp only [decodeLE, ih (n / 256) hlt]
    show some (n % 256 + 256 * (n / 256), r) = some (n, r)
    rw [Nat.mod_add_div]

/-- Varint decoding inverts varint encoding below 2 to the 64. -/
theorem decodeVarint_encodeVarint (n : Nat) (r : List Nat) (h : n < 2 ^ 64) :
    decodeVarint (encodeVarint n ++ r) = some (n, r) := by
  unfold encodeVarint
  by_cases h1 : n < 251
  · simp [h1, decodeVarint]
  · by_cases h2 : n < 2 ^ 16
    · simp only [if_neg h1, if_pos h2, List.cons_append, decodeVarint, if_neg (by omega : ¬ (251 < 251)), if_pos rfl]
      exact decodeLE_natLE 2 r n (by norm_num at h2 ⊢; omega)
    · by_cases h3 : n < 2 ^ 32
      · simp only [if_neg h1, if_neg h2, if_pos h3, List.cons_append, decodeVarint,
          if_neg (by omega : ¬ (252 < 251)), if_neg (by omega : ¬ (252 = 251)), if_pos rfl]
        exact decodeLE_natLE 4 r n (by norm_num at h3 ⊢; omega)
      · simp only [if_neg h1, if_neg h2, if_neg h3, List.cons_append, decodeVarint,
          if_neg (by omega : ¬ (253 < 251)), if_neg (by omega : ¬ (253 = 251)),
          if_neg (by omega : ¬ (253 = 252)), if_pos rfl]
        exact decodeLE_natLE 8 r n (by norm_num at h ⊢; omega)

/-- Taking exactly the length of a prefix returns that prefix and the
tail. -/
theorem takeExact_append (xs r : List Nat) : takeExact xs.length (xs ++ r) = some (xs, r) := by
  induction xs with
  | nil => rfl
  | cons x xs ih => simp [takeExact, ih]

/-- Byte-string decoding inverts byte-string encoding. -/
theorem decBytes_encBytes (bs r : List Nat) (h : bs.length < 2 ^ 64) :
    decBytes (encBytes bs ++ r) = some (bs, r) := by
  unfold decBytes encBytes
  rw [List.append_assoc, decodeVarint_encodeVarint _ _ h, optBind_some, takeExact_append]

/-- Counted element decoding inverts concatenated element encoding when
each element round-trips. -/
theorem decElems_encs {α : Type} (dec : List Nat → Option (α × List Nat)) (enc : α → List Nat) :
    ∀ (xs : List α) (r : List Nat),
      (∀ x ∈ xs, ∀ s, dec (enc x ++ s) = some (x, s)) →
      decElems dec xs.length (xs.foldr (fun x acc => enc x ++ acc) [] ++ r) = some (xs, r) := by
  intro xs
  induction xs with
  | nil => intro r _; rfl
  | cons x xs ih =>
    intro r h
    have hx := h x (List.mem_cons_self x xs) ((xs.foldr (fun x acc => enc x ++ acc) []) ++ r)
    simp only [List.foldr_cons, List.length_cons, List.append_assoc] at hx ⊢
    simp only [decElems, hx, optBind_some,
      ih r (fun y hy s => h y (List.mem_cons_of_mem _ hy) s)]
    rfl

/-- Sequence decoding inverts sequence encoding when each element
round-trips and the length fits. -/
theorem decList_encList {α : Type} (dec : List Nat → Option (α × List Nat)) (enc : α → List Nat)
    (xs : List α) (r : List Nat) (hlen : xs.length < 2 ^ 64)
    (h : ∀ x ∈ xs, ∀ s, dec (enc x ++ s) = some (x, s)) :
    decList dec (encList enc xs ++ r) = some (xs, r) := by
  unfold decList encList
  rw [List.append_assoc, decodeVarint_encodeVarint _ _ hlen, optBind_some,
    decElems_encs dec enc xs r h]

/-- Group-entry decoding inverts group-entry encoding for in-range
names and u16 tile indices. -/
theorem decGroup_encGroup (g : List Nat × List Nat) (r : List Nat)
    (h1 : g.1.length < 2 ^ 64) (h2 : g.2.length < 2 ^ 64) (h3 : ∀ t ∈ g.2, t < 2 ^ 16) :
    decGroup (encGroup g ++ r) = some (g, r) := by
  unfold decGroup encGroup
  rw [List.append_assoc, decBytes_encBytes _ _ h1, optBind_some,
    decList_encList decodeVarint encodeVarint g.2 r h2
      (fun t ht s => decodeVarint_encodeVarint t s (by have := h3 t ht; norm_num at this ⊢; omega))]
  rfl

/-- The variant tag is inverted by the tag lookup. -/
theorem ofTag_tag (f : TextureFormat) : TextureFormat.ofTag f.tag = some f := by
  cases f <;> rfl

/-- The variant tag fits every varint width. -/
theorem tag_lt (f : TextureFormat) : f.tag < 2 ^ 64 := by
  cases f <;> norm_num [TextureFormat.tag]

/-- Payload decoding inverts payload encoding for well-formed files. -/
theorem decodePayload_encodePayload (f : TilesetFile) (r : List Nat) (h : f.WF) :
    decodePayload (encodePayload f ++ r) = some (f, r) := by
  obtain ⟨h1, h2, h3, h4, h5, h6, h7⟩ := h
  unfold decodePayload encodePayload
  simp only [List.append_assoc]
  rw [decodeVarint_encodeVarint _ _ (by norm_num at h1 ⊢; omega), optBind_some,
    decodeVarint_encodeVarint _ _ (by norm_num at h2 ⊢; omega), optBind_some,
    decodeVarint_encodeVarint _ _ (by norm_num at h3 ⊢; omega), optBind_some,
    decList_encList decGroup encGroup f.tile_groups _ h6
      (fun g hg s => decGroup_encGroup g s (h7 g hg).1 (h7 g hg).2.1 (h7 g hg).2.2),
    optBind_some,
    decodeVarint_encodeVarint _ _ (tag_lt f.texture_format), optBind_some,
    ofTag_tag, optBind_some,
    decodeVarint_encodeVarint _ _ (by norm_num at h4 ⊢; omega), optBind_some,
    decBytes_encBytes _ _ h5]
  rfl

/-- C7: writing a well-formed TilesetFile at compression level 0 and
reading the produced bytes back returns an identical file (byte-identical
texture_data and identical tile_size, tile_count, tile_groups,
texture_format and texture_mips); the same round trip holds at every
level 1 through 9, given the deflate collaborator's documented lossless
contract (inflate inverts deflate at every such level). -/
theorem C7_write_read_roundtrip (deflate : Nat → List Nat → List Nat)
    (inflate : List Nat → Option (List Nat))
    (hcodec : ∀ lvl d, 1 ≤ lvl → lvl ≤ 9 → inflate (deflate lvl d) = some d)
    (f : TilesetFile) (hf : f.WF) (lvl : Nat) (hlvl : lvl ≤ 9) :
    TilesetFile.read inflate (TilesetFile.write deflate f lvl) = some f := by
  have hdec := decodePayload_encodePayload f [] hf
  rw [List.append_nil] at hdec
  unfold TilesetFile.write
  by_cases h0 : lvl = 0
  · rw [if_pos h0]
    simp [TilesetFile.read, hdec]
  · rw [if_neg h0]
    have h1 : 1 ≤ lvl := Nat.one_le_iff_ne_zero.mpr h0
    simp [TilesetFile.read, hcodec lvl _ h1 hlvl, hdec]

/-- Witness for C7 at a concrete one-tile file with one named group,
compression level 3, and the identity compressor (which satisfies the
lossless contract). -/
theorem C7_witness :
    TilesetFile.read some (TilesetFile.write (fun _ d => d)
      ⟨⟨1, 1⟩, 1, [([103], [0])], .Rgba8Unorm, 1, [9, 9, 9, 9]⟩ 3) =
      some ⟨⟨1, 1⟩, 1, [([103], [0])], .Rgba8Unorm, 1, [9, 9, 9, 9]⟩ :=
  C7_write_read_roundtrip (fun _ d => d) some (fun _ _ _ _ => rfl)
    ⟨⟨1, 1⟩, 1, [([103], [0])], .Rgba8Unorm, 1, [9, 9, 9, 9]⟩ (by decide) 3 (by decide)

/-- Inserting a key makes it look up to the inserted value. -/
theorem alLookup_dedupInsert_self (d : List ((Nat × Nat) × Nat)) (k : Nat × Nat) (v : Nat) :
    alLookup (dedupInsert d k v) k = some v := by
  unfold dedupInsert
  by_cases hp : (alLookup d k).isSome
  · rw [if_pos hp]
    induction d with
    | nil => cases hp
    | cons p rest ih =>
      by_cases hk : p.1 = k
      · simp [alLookup, hk]
      · simp [alLookup, hk] at hp ⊢
        exact ih hp
  · rw [if_neg hp]
    induction d with
    | nil => simp [alLookup]
    | cons p rest ih =>
      by_cases hk : p.1 = k
      · exact absurd (by simp [alLookup, hk]) hp
      · simp only [alLookup, if_neg hk, List.cons_append] at hp ⊢
        exact ih hp

/-- Inserting a key leaves every other key's lookup unchanged. -/
theorem alLookup_dedupInsert_other (d : List ((Nat × Nat) × Nat)) (k k2 : Nat × Nat)
    (v : Nat) (hne : k2 ≠ k) : alLookup (dedupInsert d k v) k2 = alLookup d k2 := by
  have hkk2 : ¬ (k = k2) := fun hcontra => hne hcontra.symm
  unfold dedupInsert
  by_cases hp : (alLookup d k).isSome
  · rw [if_pos hp]
    clear hp
    induction d with
    | nil => rfl
    | cons p rest ih =>
      by_cases hk : p.1 = k
      · have hp2 : ¬ (p.1 = k2) := by rw [hk]; exact hkk2
        simp only [List.map_cons, alLookup, if_pos hk, if_neg hkk2, if_neg hp2]
        exact ih
      · simp only [List.map_cons, alLookup, if_neg hk]
        by_cases hk2 : p.1 = k2
        · simp [hk2]
        · simp only [if_neg hk2]
          exact ih
  · rw [if_neg hp]
    clear hp
    induction d with
    | nil => simp [alLookup, hkk2]
    | cons p rest ih =>
      simp only [List.cons_append, alLookup]
      by_cases hk2 : p.1 = k2
      · simp [hk2]
      · simp only [if_neg hk2]
        exact ih

/-- A fresh builder has tile count zero. -/
theorem new_tile_count (ts : UVec2) (fmt : TextureFormat) (gm : Bool) (b : TextureBuilder)
    (h : TextureBuilder.new ts fmt gm = .ok b) : b.tile_count = 0 := by
  unfold TextureBuilder.new at h
  cases hps : fmt.pixel_size with
  | none => rw [hps] at h; exact Except.noConfusion h
  | some ps => rw [hps] at h; cases h; rfl

/-- Copying the base image never changes the tile count. -/
theorem copy_base_image_tile_count (b : TextureBuilder)
    (sources : List (Image × TilesetSourceFrames)) (r : Nat × Nat) (b2 : TextureBuilder)
    (h : b.copy_base_image sources r = .ok b2) : b2.tile_count = b.tile_count := by
  unfold TextureBuilder.copy_base_image at h
  repeat' split at h
  all_goals try exact Except.noConfusion h
  all_goals (cases h; rfl)

/-- One mip-generation step never changes the tile count. -/
theorem generateMipStep_tile_count (b : TextureBuilder) (m : Nat) (b2 : TextureBuilder)
    (h : generateMipStep b m = .ok b2) : b2.tile_count = b.tile_count := by
  unfold generateMipStep at h
  repeat' split at h
  all_goals try exact Except.noConfusion h
  all_goals (cases h; rfl)

/-- The mip-generation fold never changes the tile count. -/
theorem generate_mips_fold_tile_count :
    ∀ (ms : List Nat) (b b2 : TextureBuilder),
      ms.foldlM generateMipStep b = .ok b2 → b2.tile_count = b.tile_count := by
  intro ms
  induction ms with
  | nil => intro b b2 h; cases h; rfl
  | cons m ms ih =>
    intro b b2 h
    rw [List.foldlM_cons] at h
    cases hs : generateMipStep b m with
    | error e => rw [hs, exceptBind_error] at h; exact Except.noConfusion h
    | ok b1 =>
      rw [hs, exceptBind_ok] at h
      rw [ih b1 b2 h, generateMipStep_tile_count b m b1 hs]

/-- import_tile returns the builder's current tile count as the assigned
index and increments the count by exactly one. -/
theorem import_tile_spec (b : TextureBuilder) (sources : List (Image × TilesetSourceFrames))
    (r : Nat × Nat) (i : Nat) (b2 : TextureBuilder)
    (h : b.import_tile sources r = .ok (i, b2)) :
    i = b.tile_count ∧ b2.tile_count = b.tile_count + 1 := by
  unfold TextureBuilder.import_tile at h
  cases hc : b.copy_base_image sources r with
  | error e =>
    rw [hc] at h
    simp only [Except.mapError, exceptBind_error] at h
    exact Except.noConfusion h
  | ok bc =>
    rw [hc] at h
    simp only [Except.mapError, exceptBind_ok] at h
    cases hg : bc.generate_mips with
    | error e => rw [hg, exceptBind_error] at h; exact Except.noConfusion h
    | ok bg =>
      rw [hg, exceptBind_ok] at h
      cases h
      have hcg : bg.tile_count = b.tile_count := by
        rw [generate_mips_fold_tile_count _ bc bg hg,
          copy_base_image_tile_count b sources r bc hc]
      constructor
      · show bg.tile_count = b.tile_count
        exact hcg
      · show bg.tile_count + 1 = b.tile_count + 1
        rw [hcg]

/-- The filter pass over a duplicate-free reference list assigns
sequential indices in list order: afterwards the tile count has grown by
the list length, every listed reference looks up to the count at the
start of the pass plus its position, and unlisted references keep their
prior lookup. -/
theorem importPass_spec (sources : List (Image × TilesetSourceFrames)) :
    ∀ (l : List (Nat × Nat)) (d0 : List ((Nat × Nat) × Nat)) (b0 : TextureBuilder)
      (d : List ((Nat × Nat) × Nat)) (b : TextureBuilder),
      l.Nodup → importPass sources l (d0, b0) = .ok (d, b) →
      b.tile_count = b0.tile_count + l.length ∧
      (∀ r ∈ l, alLookup d r = some (b0.tile_count + refIndexOf l r)) ∧
      (∀ r, r ∉ l → alLookup d r = alLookup d0 r) := by
  intro l
  induction l with
  | nil =>
    intro d0 b0 d b _ h
    cases h
    exact ⟨rfl, ⟨fun r hr => absurd hr (List.not_mem_nil r), fun r _ => rfl⟩⟩
  | cons r0 l ih =>
    intro d0 b0 d b hnodup h
    have hr0l : r0 ∉ l := (List.nodup_cons.mp hnodup).1
    have hltail : l.Nodup := (List.nodup_cons.mp hnodup).2
    unfold importPass at h
    cases him : b0.import_tile sources r0 with
    | error e => rw [him, exceptBind_error] at h; exact Except.noConfusion h
    | ok ib =>
      obtain ⟨i, b1⟩ := ib
      rw [him, exceptBind_ok] at h
      obtain ⟨hi, hb1⟩ := import_tile_spec b0 sources r0 i b1 him
      obtain ⟨hcount, hin, hout⟩ := ih (dedupInsert d0 r0 i) b1 d b hltail h
      refine ⟨?_, ?_, ?_⟩
      · rw [hcount, hb1, List.length_cons]
        omega
      · intro r hr
        rcases List.mem_cons.mp hr with rfl | hmem
        · rw [hout r hr0l, alLookup_dedupInsert_self, hi]
          simp [refIndexOf]
        · have hne : r ≠ r0 := fun hcontra => hr0l (hcontra ▸ hmem)
          have hne2 : ¬ (r0 = r) := fun hcontra => hne (Eq.symm hcontra)
          rw [hin r hmem, hb1]
          have hidx : refIndexOf (r0 :: l) r = refIndexOf l r + 1 := by
            simp [refIndexOf, hne2]
          rw [hidx]
          congr 1
          omega
      · intro r hr
        have hne : r ≠ r0 := fun hcontra => hr (hcontra ▸ List.mem_cons_self r0 l)
        have hnl : r ∉ l := fun hcontra => hr (List.mem_cons_of_mem _ hcontra)
        rw [hout r hnl, alLookup_dedupInsert_other d0 r0 r i hne]

/-- The first-occurrence position of a member is unchanged by appending. -/
theorem refIndexOf_append_of_mem (ext : List (Nat × Nat)) (x : Nat × Nat) :
    ∀ ord : List (Nat × Nat), x ∈ ord → refIndexOf (ord ++ ext) x = refIndexOf ord x := by
  intro ord
  induction ord with
  | nil => intro hx; cases hx
  | cons p rest ih =>
    intro hx
    by_cases hp : p = x
    · simp [refIndexOf, hp]
    · have hmem : x ∈ rest := by
        rcases List.mem_cons.mp hx with h1 | h1
        · exact absurd h1.symm hp
        · exact h1
      simp [refIndexOf, hp, ih hmem]

/-- A fresh reference appended to an order sits at the old length. -/
theorem refIndexOf_append_not_mem (r : Nat × Nat) :
    ∀ ord : List (Nat × Nat), r ∉ ord → refIndexOf (ord ++ [r]) r = ord.length := by
  intro ord
  induction ord with
  | nil => intro _; simp [refIndexOf]
  | cons p rest ih =>
    intro hr
    have hp : ¬ (p = r) := fun hcontra =>
      hr (List.mem_cons.mpr (Or.inl hcontra.symm))
    have hrt : r ∉ rest := fun hcontra => hr (List.mem_cons_of_mem _ hcontra)
    simp [refIndexOf, hp, ih hrt]

/-- Folding insertRef only ever appends to the order. -/
theorem foldl_insertRef_extends :
    ∀ (ts : List (Nat × Nat)) (ord : List (Nat × Nat)),
      ∃ ext, ts.foldl insertRef ord = ord ++ ext := by
  intro ts
  induction ts with
  | nil => intro ord; exact ⟨[], (List.append_nil ord).symm⟩
  | cons r ts ih =>
    intro ord
    rw [List.foldl_cons]
    by_cases hm : r ∈ ord
    · have hins : insertRef ord r = ord := by unfold insertRef; rw [if_pos hm]
      rw [hins]
      exact ih ord
    · have hins : insertRef ord r = ord ++ [r] := by unfold insertRef; rw [if_neg hm]
      rw [hins]
      obtain ⟨ext, hext⟩ := ih (ord ++ [r])
      exact ⟨[r] ++ ext, by rw [hext, List.append_assoc]⟩

/-- Membership in the order survives folding insertRef. -/
theorem mem_foldl_insertRef_of_mem_acc (ts : List (Nat × Nat)) (ord : List (Nat × Nat))
    (x : Nat × Nat) (hx : x ∈ ord) : x ∈ ts.foldl insertRef ord := by
  obtain ⟨ext, hext⟩ := foldl_insertRef_extends ts ord
  rw [hext]
  exact List.mem_append_left ext hx

/-- Every folded-in reference is a member of the resulting order. -/
theorem mem_foldl_insertRef_self :
    ∀ (ts : List (Nat × Nat)) (ord : List (Nat × Nat)) (r : Nat × Nat),
      r ∈ ts → r ∈ ts.foldl insertRef ord := by
  intro ts
  induction ts with
  | nil => intro ord r hr; cases hr
  | cons r0 ts ih =>
    intro ord r hr
    rw [List.foldl_cons]
    rcases List.mem_cons.mp hr with rfl | hmem
    · apply mem_foldl_insertRef_of_mem_acc
      unfold insertRef
      by_cases hm : r ∈ ord
      · rw [if_pos hm]; exact hm
      · rw [if_neg hm]; exact List.mem_append_right ord (List.mem_singleton.mpr rfl)
    · exact ih _ r hmem

/-- Folding a duplicate-free sequence disjoint from the accumulator just
appends it. -/
theorem foldl_insertRef_of_nodup :
    ∀ (l acc : List (Nat × Nat)), l.Nodup → (∀ r ∈ l, r ∉ acc) →
      l.foldl insertRef acc = acc ++ l := by
  intro l
  induction l with
  | nil => intro acc _ _; exact (List.append_nil acc).symm
  | cons r l ih =>
    intro acc hnodup hdisj
    rw [List.foldl_cons]
    have hmem : r ∉ acc := hdisj r (List.mem_cons_self r l)
    have hins : insertRef acc r = acc ++ [r] := by unfold insertRef; rw [if_neg hmem]
    have hdisj2 : ∀ x ∈ l, x ∉ acc ++ [r] := by
      intro x hx hcontra
      rcases List.mem_append.mp hcontra with hc | hc
      · exact hdisj x (List.mem_cons_of_mem _ hx) hc
      · exact (List.nodup_cons.mp hnodup).1 (List.mem_singleton.mp hc ▸ hx)
    rw [hins, ih (acc ++ [r]) (List.nodup_cons.mp hnodup).2 hdisj2, List.append_assoc]
    rfl

/-- Every reference the All filter enumerates from ordinal i has source
ordinal at least i. -/
theorem allRefsFrom_fst :
    ∀ (sources : List (Image × TilesetSourceFrames)) (i : Nat) (r : Nat × Nat),
      r ∈ allRefsFrom i sources → i ≤ r.1 := by
  intro sources
  induction sources with
  | nil => intro i r hr; cases hr
  | cons s rest ih =>
    intro i r hr
    unfold allRefsFrom at hr
    rcases List.mem_append.mp hr with h1 | h1
    · obtain ⟨t, _, hrt⟩ := List.mem_map.mp h1
      rw [← hrt]
    · have := ih (i + 1) r h1
      omega

/-- The All filter never enumerates the same reference twice: source
ordinals are distinct across sources and tile indices within one. -/
theorem allRefsFrom_nodup :
    ∀ (sources : List (Image × TilesetSourceFrames)) (i : Nat),
      (allRefsFrom i sources).Nodup := by
  intro sources
  induction sources with
  | nil => intro i; exact List.nodup_nil
  | cons s rest ih =>
    intro i
    unfold allRefsFrom
    rw [List.nodup_append]
    refine ⟨?_, ih (i + 1), ?_⟩
    · apply List.Nodup.map
      · intro a b hab
        cases hab
        rfl
      · exact List.nodup_range _
    · intro r h1 h2
      obtain ⟨t, _, hrt⟩ := List.mem_map.mp h1
      have hge := allRefsFrom_fst rest (i + 1) r h2
      rw [← hrt] at hge
      exact absurd hge (by omega)

/-- One group's tiles under the dedup invariant: if the dedup map holds
exactly the references of the order ord at their first-occurrence
positions and the builder has imported ord.length tiles, then processing
a tile list folds its fresh references onto the end of the order, imports
exactly those, and outputs every reference's position in the extended
order. -/
theorem importGroupTiles_spec (sources : List (Image × TilesetSourceFrames))
    (name : List Nat) :
    ∀ (ts : List (Nat × Nat)) (d : List ((Nat × Nat) × Nat)) (b : TextureBuilder)
      (ord : List (Nat × Nat)) (out : List Nat) (d2 : List ((Nat × Nat) × Nat))
      (b2 : TextureBuilder),
      (∀ r, alLookup d r = if r ∈ ord then some (refIndexOf ord r) else none) →
      b.tile_count = ord.length →
      importGroupTiles sources name ts (d, b) = .ok (out, d2, b2) →
      (∀ r, alLookup d2 r =
        if r ∈ ts.foldl insertRef ord then some (refIndexOf (ts.foldl insertRef ord) r)
        else none) ∧
      b2.tile_count = (ts.foldl insertRef ord).length ∧
      out = ts.map fun r => refIndexOf (ts.foldl insertRef ord) r := by
  intro ts
  induction ts with
  | nil =>
    intro d b ord out d2 b2 hinv hcount h
    have h2 : (Except.ok ([], d, b) : Except ImportTilesetError _) = .ok (out, d2, b2) := h
    simp only [Except.ok.injEq, Prod.mk.injEq] at h2
    obtain ⟨hout, hd2, hb2⟩ := h2
    rw [← hout, ← hd2, ← hb2]
    exact ⟨hinv, hcount, rfl⟩
  | cons r ts ih =>
    intro d b ord out d2 b2 hinv hcount h
    unfold importGroupTiles at h
    split at h
    · exact Except.noConfusion h
    · rename_i i0 da ba heq
      unfold importGroupRef at heq
      rw [hinv r] at heq
      by_cases hmem : r ∈ ord
      · rw [if_pos hmem] at heq
        have heq2 : (Except.ok (refIndexOf ord r, d, b) :
            Except ImportTilesetError (Nat × List ((Nat × Nat) × Nat) × TextureBuilder)) =
            .ok (i0, da, ba) := heq
        simp only [Except.ok.injEq, Prod.mk.injEq] at heq2
        obtain ⟨hp1, hp2, hp3⟩ := heq2
        rw [← hp1, ← hp2, ← hp3] at h
        split at h
        · exact Except.noConfusion h
        · rename_i is d3 b3 heq3
          simp only [Except.ok.injEq, Prod.mk.injEq] at h
          obtain ⟨hout, hd2, hb2⟩ := h
          rw [← hout, ← hd2, ← hb2]
          obtain ⟨ih1, ih2, ih3⟩ := ih d b ord is d3 b3 hinv hcount heq3
          have hins : insertRef ord r = ord := by unfold insertRef; rw [if_pos hmem]
          rw [List.foldl_cons, hins]
          refine ⟨ih1, ih2, ?_⟩
          rw [List.map_cons]
          have hhead : refIndexOf ord r = refIndexOf (ts.foldl insertRef ord) r := by
            obtain ⟨ext, hext⟩ := foldl_insertRef_extends ts ord
            rw [hext, refIndexOf_append_of_mem ext r ord hmem]
          rw [← hhead, ih3]
      · rw [if_neg hmem] at heq
        have heq2 : (match b.import_tile sources r with
            | Except.error e => Except.error (e.in_group name)
            | Except.ok (idx, b2) => Except.ok (idx, dedupInsert d r idx, b2) :
            Except ImportTilesetError (Nat × List ((Nat × Nat) × Nat) × TextureBuilder)) =
            .ok (i0, da, ba) := heq
        split at heq2
        · exact Except.noConfusion heq2
        · rename_i idx bNew him
          simp only [Except.ok.injEq, Prod.mk.injEq] at heq2
          obtain ⟨hp1, hp2, hp3⟩ := heq2
          rw [← hp1, ← hp2, ← hp3] at h
          obtain ⟨hidx, hcnt⟩ := import_tile_spec b sources r idx bNew him
          split at h
          · exact Except.noConfusion h
          · rename_i is d3 b3 heq3
            simp only [Except.ok.injEq, Prod.mk.injEq] at h
            obtain ⟨hout, hd2, hb2⟩ := h
            rw [← hout, ← hd2, ← hb2]
            have hinv2 : ∀ x, alLookup (dedupInsert d r idx) x =
                if x ∈ ord ++ [r] then some (refIndexOf (ord ++ [r]) x) else none := by
              intro x
              by_cases hx : x = r
              · subst hx
                rw [alLookup_dedupInsert_self,
                  if_pos (List.mem_append_right ord (List.mem_singleton.mpr rfl)),
                  refIndexOf_append_not_mem x ord hmem, hidx, hcount]
              · rw [alLookup_dedupInsert_other d r x idx hx, hinv x]
                by_cases hxo : x ∈ ord
                · rw [if_pos hxo, if_pos (List.mem_append_left _ hxo),
                    refIndexOf_append_of_mem [r] x ord hxo]
                · have hxno : x ∉ ord ++ [r] := by
                    intro hcontra
                    rcases List.mem_append.mp hcontra with hc | hc
                    · exact hxo hc
                    · exact hx (List.mem_singleton.mp hc)
                  rw [if_neg hxo, if_neg hxno]
            have hcount2 : bNew.tile_count = (ord ++ [r]).length := by
              rw [hcnt, hcount, List.length_append]
              rfl
            obtain ⟨ih1, ih2, ih3⟩ :=
              ih (dedupInsert d r idx) bNew (ord ++ [r]) is d3 b3 hinv2 hcount2 heq3
            have hins : insertRef ord r = ord ++ [r] := by
              unfold insertRef; rw [if_neg hmem]
            rw [List.foldl_cons, hins]
            refine ⟨ih1, ih2, ?_⟩
            rw [List.map_cons]
            have hhead : idx = refIndexOf (ts.foldl insertRef (ord ++ [r])) r := by
              rw [hidx, hcount]
              obtain ⟨ext, hext⟩ := foldl_insertRef_extends ts (ord ++ [r])
              rw [hext,
                refIndexOf_append_of_mem ext r (ord ++ [r])
                  (List.mem_append_right ord (List.mem_singleton.mpr rfl)),
                refIndexOf_append_not_mem r ord hmem]
            rw [hhead, ih3]

/-- The whole group pass under the dedup invariant: the final order is
the fold of all group references onto the starting order, the builder
has imported exactly one tile per order entry, and every group reference
resolves to its position in the final order. -/
theorem importGroups_spec (sources : List (Image × TilesetSourceFrames)) :
    ∀ (groups : List (List Nat × List (Nat × Nat))) (d : List ((Nat × Nat) × Nat))
      (b : TextureBuilder) (ord : List (Nat × Nat))
      (outs : List (List Nat × List Nat)) (d2 : List ((Nat × Nat) × Nat))
      (b2 : TextureBuilder),
      (∀ r, alLookup d r = if r ∈ ord then some (refIndexOf ord r) else none) →
      b.tile_count = ord.length →
      importGroups sources groups (d, b) = .ok (outs, d2, b2) →
      (∀ r, alLookup d2 r =
        if r ∈ (flatGroupRefs groups).foldl insertRef ord then
          some (refIndexOf ((flatGroupRefs groups).foldl insertRef ord) r)
        else none) ∧
      b2.tile_count = ((flatGroupRefs groups).foldl insertRef ord).length ∧
      outs = groups.map fun g =>
        (g.1, g.2.map fun r => refIndexOf ((flatGroupRefs groups).foldl insertRef ord) r) := by
  intro groups
  induction groups with
  | nil =>
    intro d b ord outs d2 b2 hinv hcount h
    have h2 : (Except.ok ([], d, b) : Except ImportTilesetError _) = .ok (outs, d2, b2) := h
    simp only [Except.ok.injEq, Prod.mk.injEq] at h2
    obtain ⟨hout, hd2, hb2⟩ := h2
    rw [← hout, ← hd2, ← hb2]
    exact ⟨hinv, hcount, rfl⟩
  | cons g rest ih =>
    intro d b ord outs d2 b2 hinv hcount h
    unfold importGroups at h
    split at h
    · exact Except.noConfusion h
    · rename_i is da ba heq
      obtain ⟨h1inv, h1cnt, h1out⟩ :=
        importGroupTiles_spec sources g.1 g.2 d b ord is da ba hinv hcount heq
      split at h
      · exact Except.noConfusion h
      · rename_i gs d3 b3 heq2
        simp only [Except.ok.injEq, Prod.mk.injEq] at h
        obtain ⟨hout, hd2, hb2⟩ := h
        rw [← hout, ← hd2, ← hb2]
        obtain ⟨ih1, ih2, ih3⟩ :=
          ih da ba (g.2.foldl insertRef ord) gs d3 b3 h1inv h1cnt heq2
        have hflat : (flatGroupRefs (g :: rest)).foldl insertRef ord =
            (flatGroupRefs rest).foldl insertRef (g.2.foldl insertRef ord) := by
          show (g.2 ++ flatGroupRefs rest).foldl insertRef ord = _
          rw [List.foldl_append]
        rw [hflat]
        refine ⟨ih1, ih2, ?_⟩
        rw [List.map_cons]
        have hhead : is = g.2.map fun r =>
            refIndexOf ((flatGroupRefs rest).foldl insertRef (g.2.foldl insertRef ord)) r := by
          rw [h1out]
          apply List.map_congr_left
          intro r hr
          obtain ⟨ext, hext⟩ :=
            foldl_insertRef_extends (flatGroupRefs rest) (g.2.foldl insertRef ord)
          rw [hext,
            refIndexOf_append_of_mem ext r (g.2.foldl insertRef ord)
              (mem_foldl_insertRef_self g.2 ord r hr)]
        rw [hhead, ih3]

/-- C9 (amended): deduplication holds for every pattern of repeated
references except duplication inside the filter's own explicit list. For
any import whose filter produces a duplicate-free reference sequence —
always the case for the All and None filters (final conjunct), and for a
List filter exactly when the list itself has no duplicates — a
successful import copies each distinct SourceTileRef exactly once: the
tile count
equals the number of distinct references across the filter and all group
lists in first-occurrence order, and every group reference (whether it
repeats the filter, another group, an earlier occurrence in its own
group, or is not in the filter at all) resolves to the one output
TileIndex at its position in that first-occurrence order. A reference
duplicated within the filter's explicit list, however, is imported once
per occurrence (see the counterexample). -/
theorem C9_amended (data : TilesetImportData) (tf0 : Option TextureFormat) (gm : Bool)
    (v : Option TextureFormat × List (Image × TilesetSourceFrames)) (file : TilesetFile)
    (hv : validateSources data.tile_size tf0 0 data.sources = .ok v)
    (hnodup : (tileFilterRefs data.tile_filter v.2).Nodup)
    (himport : data.import tf0 gm = .ok file) :
    file.tile_count =
      (dedupSeq (tileFilterRefs data.tile_filter v.2 ++ flatGroupRefs data.tile_groups)).length ∧
    file.tile_groups = data.tile_groups.map (fun g => (g.1, g.2.map fun r =>
      refIndexOf
        (dedupSeq (tileFilterRefs data.tile_filter v.2 ++ flatGroupRefs data.tile_groups)) r)) ∧
    (∀ sources2 : List (Image × TilesetSourceFrames),
      (tileFilterRefs .All sources2).Nodup ∧ (tileFilterRefs .None sources2).Nodup) := by
  unfold TilesetImportData.import at himport
  rw [hv, exceptBind_ok] at himport
  simp only [] at himport
  cases hb : TextureBuilder.new data.tile_size (v.1.getD .Rgba8Unorm) gm with
  | error e => rw [hb, exceptBind_error] at himport; exact Except.noConfusion himport
  | ok b0 =>
    rw [hb, exceptBind_ok] at himport
    cases hp : importPass v.2 (tileFilterRefs data.tile_filter v.2) ([], b0) with
    | error e => rw [hp, exceptBind_error] at himport; exact Except.noConfusion himport
    | ok st =>
      obtain ⟨d, b1⟩ := st
      rw [hp, exceptBind_ok] at himport
      have hb00 : b0.tile_count = 0 := new_tile_count _ _ _ _ hb
      obtain ⟨hcount1, hin, hout⟩ :=
        importPass_spec v.2 (tileFilterRefs data.tile_filter v.2) [] b0 d b1 hnodup hp
      have hinv : ∀ r, alLookup d r =
          if r ∈ tileFilterRefs data.tile_filter v.2 then
            some (refIndexOf (tileFilterRefs data.tile_filter v.2) r)
          else none := by
        intro r
        by_cases hr : r ∈ tileFilterRefs data.tile_filter v.2
        · rw [if_pos hr, hin r hr, hb00, Nat.zero_add]
        · rw [if_neg hr, hout r hr]
          rfl
      have hcount : b1.tile_count = (tileFilterRefs data.tile_filter v.2).length := by
        rw [hcount1, hb00, Nat.zero_add]
      cases hg : importGroups v.2 data.tile_groups (d, b1) with
      | error e => rw [hg, exceptBind_error] at himport; exact Except.noConfusion himport
      | ok fin =>
        obtain ⟨outs, d3, b3⟩ := fin
        rw [hg, exceptBind_ok] at himport
        obtain ⟨_, hcnt3, houts⟩ :=
          importGroups_spec v.2 data.tile_groups d b1
            (tileFilterRefs data.tile_filter v.2) outs d3 b3 hinv hcount hg
        cases himport
        have hord : dedupSeq (tileFilterRefs data.tile_filter v.2 ++
              flatGroupRefs data.tile_groups) =
            (flatGroupRefs data.tile_groups).foldl insertRef
              (tileFilterRefs data.tile_filter v.2) := by
          unfold dedupSeq
          rw [List.foldl_append,
            foldl_insertRef_of_nodup (tileFilterRefs data.tile_filter v.2) [] hnodup
              (fun r _ hc => List.not_mem_nil r hc),
            List.nil_append]
        refine ⟨?_, ?_, ?_⟩
        · show b3.tile_count = _
          rw [hord]
          exact hcnt3
        · show outs = _
          rw [hord]
          exact houts
        · intro sources2
          exact ⟨allRefsFrom_nodup sources2 0, List.nodup_nil⟩

/-- Witness for C9 at a concrete import exercising the All filter plus a
named group referencing the same tile: the hypotheses hold (the All
filter's reference sequence [(0,0)] is duplicate-free), the import
succeeds with exactly one copied tile, and the group resolves to output
index 0, the reference's position in first-occurrence order. -/
theorem C9_witness :
    (⟨⟨1, 1⟩, 1, [([103], [0])], .Rgba8Unorm, 1, [1, 2, 3, 4]⟩ : TilesetFile).tile_count =
      (dedupSeq (tileFilterRefs .All
          [(⟨1, 1, .Rgba8Unorm, [1, 2, 3, 4]⟩, ⟨.Single, ⟨1, 1⟩, 1⟩)] ++
        flatGroupRefs [([103], [(0, 0)])])).length ∧
    (⟨⟨1, 1⟩, 1, [([103], [0])], .Rgba8Unorm, 1, [1, 2, 3, 4]⟩ : TilesetFile).tile_groups =
      [([103], [(0, 0)])].map (fun g => (g.1, g.2.map fun r =>
        refIndexOf (dedupSeq (tileFilterRefs .All
            [(⟨1, 1, .Rgba8Unorm, [1, 2, 3, 4]⟩, ⟨.Single, ⟨1, 1⟩, 1⟩)] ++
          flatGroupRefs [([103], [(0, 0)])])) r)) ∧
    (∀ sources2 : List (Image × TilesetSourceFrames),
      (tileFilterRefs .All sources2).Nodup ∧ (tileFilterRefs .None sources2).Nodup) :=
  C9_amended
    ⟨⟨1, 1⟩, .All, [([103], [(0, 0)])],
     [⟨⟨1, 1, .Rgba8Unorm, [1, 2, 3, 4]⟩, .Single⟩]⟩ none false
    (some .Rgba8Unorm, [(⟨1, 1, .Rgba8Unorm, [1, 2, 3, 4]⟩, ⟨.Single, ⟨1, 1⟩, 1⟩)])
    ⟨⟨1, 1⟩, 1, [([103], [0])], .Rgba8Unorm, 1, [1, 2, 3, 4]⟩
    (by rfl) (by decide) (by rfl)
end TilesetImporter
